import Mathlib

/-!
Verification of the honOS kernel core: shallow embedding of the
user-process execution path (`src/kernel/terminal.cpp`) and of the
cooperative scheduler interface (`src/kernel/task.hpp`), together with
proofs of the stated properties.

C strings are modelled as `List Nat` of byte values; the end of the list
plays the role of the terminating NUL (an explicit 0 byte inside the list
is also treated as a terminator, exactly as in C).  Machine integers are
modelled as `Nat` with explicit reduction modulo 2^64 where the C code
performs 64-bit arithmetic that may wrap.
-/

namespace HonOS

/-- Error kinds surfaced by the core.  `error.hpp` is not under `src/`;
modelled from the spec (section 7): NotFound, Full, InvalidFile,
InvalidFormat, OutOfMemory, plus the success value used by `WithError`. -/
inductive KError where
  | kSuccess
  | kFull
  | kNotFound
  | kInvalidFile
  | kInvalidFormat
  | kOutOfMemory
deriving DecidableEq, Repr

/-! ## MakeArgVector (src/kernel/terminal.cpp lines 21-75)

The C function builds `argv`/`argbuf` inside one 4-KiB frame:
`argv[argc] = &argbuf[argbuf_index]` records a pointer into the packed
string buffer and `strcpy` copies the token there.  We model the packed
buffer by the list of string values stored so far (`args`) together with
the write cursor `argbufIndex` (which advances by `strlen(s) + 1` per
push, exactly as in the source); the pointers `argv[i]` are determined by
the prefix sums of those lengths. -/

/-- C `isspace` on a byte value (space and the five control characters
0x09-0x0d, as in the C locale used by the kernel). -/
def isspaceB (c : Nat) : Bool := c == 32 || (9 ≤ c && c ≤ 13)

/-- A byte continues a token iff it is neither NUL nor whitespace
(the scan condition `p[0] != 0 && !isspace(p[0])`). -/
def isTokChar (c : Nat) : Bool := c != 0 && !isspaceB c

/-- The accumulated argument-vector state: entry count `argc`, the stored
strings `args` (the contents the `argv` pointers reference inside
`argbuf`), and the packed-buffer cursor `argbuf_index`. -/
structure AVState where
  argc : Nat
  args : List (List Nat)
  argbufIndex : Nat
deriving DecidableEq, Repr

/-- `push_to_argv` from `MakeArgVector`: fails with `kFull` (leaving the
state untouched) when the entry table or the packed string buffer is
exhausted; otherwise stores the string and advances the cursor by
`strlen(s) + 1`. -/
def pushToArgv (argv_len argbuf_len : Nat) (st : AVState) (s : List Nat) :
    AVState × KError :=
  if argv_len ≤ st.argc ∨ argbuf_len ≤ st.argbufIndex then (st, KError.kFull)
  else ({ argc := st.argc + 1, args := st.args ++ [s],
          argbufIndex := st.argbufIndex + s.length + 1 }, KError.kSuccess)

/-- The tokenizing loop of `MakeArgVector` over the `first_arg` buffer.
Returns the final state, the error, and the post-call contents of the
`first_arg` buffer: the loop writes a NUL over the byte that follows each
consumed token (`p[0] = 0`), so the returned buffer differs from the
input wherever that byte was whitespace.  `fuel` bounds the recursion;
`buf.length` is always sufficient. -/
def argLoop (argv_len argbuf_len : Nat) :
    Nat → AVState → List Nat → AVState × KError × List Nat
  | 0, st, buf => (st, KError.kSuccess, buf)
  | fuel + 1, st, buf =>
    let sp := buf.takeWhile isspaceB
    let r1 := buf.dropWhile isspaceB
    match r1 with
    | [] => (st, KError.kSuccess, buf)
    | c :: _ =>
      if c = 0 then (st, KError.kSuccess, buf)
      else
        let tok := r1.takeWhile isTokChar
        match r1.dropWhile isTokChar with
        | [] =>
          let (st', e) := pushToArgv argv_len argbuf_len st tok
          (st', e, buf)
        | d :: tail =>
          if d = 0 then
            let (st', e) := pushToArgv argv_len argbuf_len st tok
            (st', e, buf)
          else
            let (st', e) := pushToArgv argv_len argbuf_len st tok
            if e = KError.kSuccess then
              let (st'', e'', mt) := argLoop argv_len argbuf_len fuel st' tail
              (st'', e'', sp ++ tok ++ 0 :: mt)
            else (st', e, sp ++ tok ++ 0 :: tail)

/-- `MakeArgVector(command, first_arg, argv, argv_len, argbuf, argbuf_len)`:
pushes the command name as `argv[0]`, then tokenizes `first_arg` on
whitespace runs, pushing each token.  Returns the accumulated state (whose
`argc` is the count returned in the C `WithError<int>`), the error, and
the mutated `first_arg` buffer. -/
def MakeArgVector (command : List Nat) (first_arg : Option (List Nat))
    (argv_len argbuf_len : Nat) : AVState × KError × Option (List Nat) :=
  let st0 : AVState := ⟨0, [], 0⟩
  let (st1, e1) := pushToArgv argv_len argbuf_len st0 command
  if e1 = KError.kSuccess then
    match first_arg with
    | none => (st1, KError.kSuccess, none)
    | some buf =>
      let (st, e, mb) := argLoop argv_len argbuf_len buf.length st1 buf
      (st, e, some mb)
  else (st1, e1, first_arg)

/-- The whitespace-run tokens of a `first_arg` buffer, mirroring the scan
structure of `argLoop` (used to state how many pushes the loop attempts). -/
def tokensList : Nat → List Nat → List (List Nat)
  | 0, _ => []
  | fuel + 1, buf =>
    let r1 := buf.dropWhile isspaceB
    match r1 with
    | [] => []
    | c :: _ =>
      if c = 0 then []
      else
        let tok := r1.takeWhile isTokChar
        match r1.dropWhile isTokChar with
        | [] => [tok]
        | d :: tail => if d = 0 then [tok] else tok :: tokensList fuel tail

/-- The tokens of a buffer. -/
def tokens (buf : List Nat) : List (List Nat) := tokensList buf.length buf

/-! ## ELF images (elf.hpp structures as seen from terminal.cpp) -/

/-- 64-bit modulus for `uint64_t` arithmetic. -/
def u64 : Nat := 2 ^ 64

/-- `PT_LOAD` segment type (standard ELF constant). -/
def PT_LOAD : Nat := 1

/-- `ET_EXEC` object-file type (standard ELF constant). -/
def ET_EXEC : Nat := 2

/-- An ELF program header, with the fields `CopyLoadSegments` and
`GetFirstLoadAddress` read. -/
structure Phdr where
  p_type : Nat
  p_offset : Nat
  p_vaddr : Nat
  p_filesz : Nat
  p_memsz : Nat
deriving DecidableEq, Repr

/-- An ELF header together with its program-header table (the file image
reinterpreted as `Elf64_Ehdr*`); `e_ident` is the identification byte
array whose first four bytes hold the magic. -/
structure Elf64_Ehdr where
  e_ident : List Nat
  e_type : Nat
  e_entry : Nat
  phdrs : List Phdr
deriving DecidableEq, Repr

/-- The four ELF magic bytes `"\x7fELF"`. -/
def elfMagic : List Nat := [0x7f, 0x45, 0x4c, 0x46]

/-- `GetFirstLoadAddress`: the virtual address of the first `PT_LOAD`
program header, or 0 when no loadable segment exists. -/
def GetFirstLoadAddress (ehdr : Elf64_Ehdr) : Nat :=
  match ehdr.phdrs.find? (fun p => p.p_type == PT_LOAD) with
  | some p => p.p_vaddr
  | none => 0

/-- The canonical higher-half boundary `0xffff'8000'0000'0000` checked by
`LoadELF`. -/
def canonicalBase : Nat := 0xffff800000000000

/-! ## Kernel state

The machine state threaded through the paging layer, the loader and
`Terminal::ExecuteFile`.  Physical frames are an arena indexed by a
monotone counter `nextFrame`; `allocated` lists the frame ids currently
owned by page-map and mapped-page allocations, and `freeFrames` is the
remaining physical-frame budget (so allocation can fail with
OutOfMemory).  `content f i` is entry `i` of the top-level table living
in frame `f`.  `cr3` is the active translation root and `taskCr3` the
calling task's `Context().cr3`.  `appLoads` is the load cache keyed by
file identity, `fileReads` counts `fat::LoadFile` calls, `loadedSegs`
records the PT_LOAD segments whose bytes have been copied, and
`dpBegin`/`dpEnd`/`fileMapEnd`/`numFiles` are the per-task fields set by
`ExecuteFile`. -/

/-- `AppLoadInfo`: load-end virtual address, entry point and the
top-level root frame returned to the requesting process. -/
structure AppLoadInfo where
  vaddr_end : Nat
  entry : Nat
  pml4 : Nat
deriving DecidableEq, Repr

/-- A FAT directory entry as the loader sees it: a stable identity (the
`&file_entry` pointer used as the cache key) and the file content,
already viewed as an ELF image. -/
structure FileEntry where
  id : Nat
  image : Elf64_Ehdr
deriving DecidableEq, Repr

/-- The kernel machine state. -/
structure Kernel where
  nextFrame : Nat
  freeFrames : Nat
  allocated : List Nat
  content : Nat → Nat → Nat
  cr3 : Nat
  taskCr3 : Nat
  appLoads : List (Nat × AppLoadInfo)
  fileReads : Nat
  loadedSegs : List Phdr
  dpBegin : Nat
  dpEnd : Nat
  fileMapEnd : Nat
  numFiles : Nat

/-- Cache lookup `app_loads->find(&file_entry)`. -/
def lookupCache (c : List (Nat × AppLoadInfo)) (id : Nat) : Option AppLoadInfo :=
  match c.find? (fun p => p.1 == id) with
  | some p => some p.2
  | none => none

/-- Modelled from the spec: `NewPageMap` (paging collaborator, not under
`src/`) allocates one fresh zero-filled page-table frame and fails with
OutOfMemory when no physical frame is available (spec section 4.2,
CreateRoot). -/
def NewPageMap (k : Kernel) : (Nat × KError) × Kernel :=
  if k.freeFrames = 0 then ((0, KError.kOutOfMemory), k)
  else
    (((k.nextFrame, KError.kSuccess)),
     { k with nextFrame := k.nextFrame + 1,
              freeFrames := k.freeFrames - 1,
              allocated := k.allocated ++ [k.nextFrame],
              content := fun g i => if g = k.nextFrame then 0 else k.content g i })

/-- `SetupPML4` (terminal.cpp lines 135-150): allocates a fresh top-level
table, copies the kernel half (the first 256 entries) of the currently
active root into it verbatim, installs it in CR3 and records it in the
calling task's saved context. -/
def SetupPML4 (k : Kernel) : (Nat × KError) × Kernel :=
  let ((f, e), k1) := NewPageMap k
  if e = KError.kSuccess then
    (((f, KError.kSuccess)),
     { k1 with
         content := fun g i =>
           if g = f ∧ i < 256 then k1.content k1.cr3 i else k1.content g i,
         cr3 := f,
         taskCr3 := f })
  else ((f, e), k1)

/-- Modelled from the spec: `CopyPageMaps` (paging collaborator, not
under `src/`) is the spec's AliasRange: it copies the top-level entries
of slots `[start, stop)` from `src` into `dst`, sharing the referenced
lower-level tables without copying page contents or allocating frames;
the call `CopyPageMaps(dst, src, 4, 256)` aliases slots `[4, 256)`
(spec sections 4.2 and 4.3). -/
def CopyPageMaps (k : Kernel) (dst src start stop : Nat) : KError × Kernel :=
  (KError.kSuccess,
   { k with content := fun g i =>
       if g = dst ∧ start ≤ i ∧ i < stop then k.content src i else k.content g i })

/-- Modelled from the spec: `SetupPageMaps` (paging collaborator, not
under `src/`) maps `numPages` fresh zero-initialized 4-KiB frames
covering the range starting at `vaddr` under the active root, failing
with OutOfMemory when the frame budget is exhausted (spec sections 4.2
and 4.3; the lower-level table structure is elided, the cost counted is
the mapped frames themselves). -/
def SetupPageMaps (k : Kernel) (vaddr numPages : Nat) : KError × Kernel :=
  if k.freeFrames < numPages then (KError.kOutOfMemory, k)
  else
    (KError.kSuccess,
     { k with nextFrame := k.nextFrame + numPages,
              freeFrames := k.freeFrames - numPages,
              allocated := k.allocated ++ (List.range numPages).map (k.nextFrame + ·) })

/-- `CopyLoadSegments` (terminal.cpp lines 91-118): for each `PT_LOAD`
program header, track `last_addr = max(last_addr, p_vaddr + p_memsz)`
(64-bit arithmetic), map `(p_memsz + 4095) / 4096` pages at `p_vaddr`,
and copy `p_filesz` bytes plus BSS zero-fill (recorded in `loadedSegs`).
On a mapping failure the error is returned together with the updated
`last_addr`. -/
def CopyLoadSegmentsAux (k : Kernel) : List Phdr → Nat → (Nat × KError) × Kernel
  | [], last => ((last, KError.kSuccess), k)
  | ph :: rest, last =>
    if ph.p_type = PT_LOAD then
      let last' := max last ((ph.p_vaddr + ph.p_memsz) % u64)
      let num := ((ph.p_memsz + 4095) % u64) / 4096
      let (e, k1) := SetupPageMaps k ph.p_vaddr num
      if e = KError.kSuccess then
        CopyLoadSegmentsAux { k1 with loadedSegs := k1.loadedSegs ++ [ph] } rest last'
      else ((last', e), k1)
    else CopyLoadSegmentsAux k rest last

/-- `CopyLoadSegments` entry point (`last_addr` starts at 0). -/
def CopyLoadSegments (k : Kernel) (ehdr : Elf64_Ehdr) : (Nat × KError) × Kernel :=
  CopyLoadSegmentsAux k ehdr.phdrs 0

/-- `LoadELF` (terminal.cpp lines 121-133): reject non-`ET_EXEC` images
and images whose first loadable address lies below the canonical
higher-half boundary with `kInvalidFormat`; otherwise copy the load
segments. -/
def LoadELF (k : Kernel) (ehdr : Elf64_Ehdr) : (Nat × KError) × Kernel :=
  if ehdr.e_type ≠ ET_EXEC then ((0, KError.kInvalidFormat), k)
  else if GetFirstLoadAddress ehdr < canonicalBase then
    ((0, KError.kInvalidFormat), k)
  else CopyLoadSegments k ehdr

/-- `LoadApp` (terminal.cpp lines 186-226).  Builds a fresh private root
with `SetupPML4`; on a cache hit aliases slots `[4, 256)` from the cached
canonical root into it and returns the cached info with the private root
substituted (no file read); on a miss reads the file (`fat::LoadFile`,
counted by `fileReads`), checks the ELF magic (`kInvalidFile` on
mismatch), runs `LoadELF`, inserts the canonical entry into the cache,
then builds a second private root and aliases `[4, 256)` into it. -/
def LoadApp (k : Kernel) (fe : FileEntry) : (AppLoadInfo × KError) × Kernel :=
  let ((tmp, e0), k0) := SetupPML4 k
  if e0 = KError.kSuccess then
    match lookupCache k0.appLoads fe.id with
    | some cached =>
      let (e1, k1) := CopyPageMaps k0 tmp cached.pml4 4 256
      (({ cached with pml4 := tmp }, e1), k1)
    | none =>
      let k1 := { k0 with fileReads := k0.fileReads + 1 }
      if fe.image.e_ident.take 4 ≠ elfMagic then
        ((⟨0, 0, 0⟩, KError.kInvalidFile), k1)
      else
        let ((last_addr, e2), k2) := LoadELF k1 fe.image
        if e2 = KError.kSuccess then
          let app_load : AppLoadInfo := ⟨last_addr, fe.image.e_entry, tmp⟩
          let k3 := { k2 with appLoads := k2.appLoads ++ [(fe.id, app_load)] }
          let ((pml4b, e3), k4) := SetupPML4 k3
          if e3 = KError.kSuccess then
            let (e4, k5) := CopyPageMaps k4 pml4b tmp 4 256
            (({ app_load with pml4 := pml4b }, e4), k5)
          else ((app_load, e3), k4)
        else ((⟨0, 0, 0⟩, e2), k2)
  else ((⟨0, 0, 0⟩, e0), k0)

/-- The fixed argument-frame address `0xffff'ffff'ffff'f000`. -/
def argsFrameAddr : Nat := 0xfffffffffffff000

/-- The application stack size (8 frames). -/
def appStackSize : Nat := 8 * 4096

/-- The values `Terminal::ExecuteFile` hands to `CallApp`: argument
count, entry point and initial stack pointer. -/
structure ExecSetup where
  argc : Nat
  entry : Nat
  rsp : Nat
deriving DecidableEq, Repr

/-- `Terminal::ExecuteFile` (terminal.cpp lines 457-519) up to the
`CallApp` control transfer: load the application, map the argument
frame, marshal `argv` (argv_len 32, argbuf filling the rest of the
frame), map the 8-frame stack, install the three terminal file
descriptors, position the demand-paging window just past the loaded
image, and record the file-map boundary.  Each failing step aborts with
its error, leaving the state as that step left it. -/
def ExecuteFile (k : Kernel) (fe : FileEntry) (command : List Nat)
    (first_arg : Option (List Nat)) : Except KError ExecSetup × Kernel :=
  let ((app_load, e0), k0) := LoadApp k fe
  if e0 = KError.kSuccess then
    let (e1, k1) := SetupPageMaps k0 argsFrameAddr 1
    if e1 = KError.kSuccess then
      let (st, e2, _) := MakeArgVector command first_arg 32 (4096 - 8 * 32)
      if e2 = KError.kSuccess then
        let stackBase := argsFrameAddr - appStackSize
        let (e3, k2) := SetupPageMaps k1 stackBase 8
        if e3 = KError.kSuccess then
          let k3 := { k2 with numFiles := k2.numFiles + 3 }
          let elfNextPage := ((app_load.vaddr_end + 4095) % u64) &&& 0xfffffffffffff000
          let k4 := { k3 with dpBegin := elfNextPage, dpEnd := elfNextPage,
                              fileMapEnd := stackBase }
          (Except.ok ⟨st.argc, app_load.entry, stackBase + appStackSize - 8⟩, k4)
        else (Except.error e3, k2)
      else (Except.error e2, k1)
    else (Except.error e1, k1)
  else (Except.error e0, k0)

/-- Whether an `Except` result is a success. -/
def exceptOk : Except KError ExecSetup → Bool
  | Except.ok _ => true
  | Except.error _ => false

instance : DecidableEq (Except KError ExecSetup) := fun x y =>
  match x, y with
  | Except.error a, Except.error b => decidable_of_iff (a = b) (by simp)
  | Except.ok a, Except.ok b => decidable_of_iff (a = b) (by simp)
  | Except.error _, Except.ok _ => isFalse (fun h => Except.noConfusion h)
  | Except.ok _, Except.error _ => isFalse (fun h => Except.noConfusion h)

/-! ## Messages and the task manager

`task.hpp` declares `Task`/`TaskManager`; their implementation
(`task.cpp`) is not under `src/`, so the operational behaviour is
modelled from the spec (sections 3 and 4.1). -/

/-- Modelled from the spec: the tagged message union of `message.hpp`
(not under `src/`): timer timeout (tick value, extra value), key press
(modifier bits, keycode, translated character, press/release flag),
layer draw-area request, window-activation notice (spec section 3). -/
inductive MMessage where
  | timerTimeout (timeout : Nat) (value : Int)
  | keyPush (modifier : Nat) (keycode : Nat) (ascii : Nat) (press : Bool)
  | layer (op : Nat) (layerId : Nat)
  | windowActive (activate : Bool)
deriving DecidableEq, Repr

/-- A task as the scheduler sees it: its unique id and its FIFO mailbox
(front = oldest).  The CPU context, stack and descriptor tables play no
role in the queue/mailbox claims. -/
structure MTask where
  id : Nat
  msgs : List MMessage
deriving DecidableEq, Repr

/-- The task manager: owned tasks, the id counter, and the run queue of
task ids (front = currently executing). -/
structure TaskMgr where
  tasks : List MTask
  latestId : Nat
  running : List Nat
deriving DecidableEq, Repr

/-- Whether the manager owns a task with the given id. -/
def hasTask (mgr : TaskMgr) (id : Nat) : Bool :=
  mgr.tasks.any (fun t => t.id == id)

/-- Modelled from the spec: `NewTask` allocates a fresh task with the
next id and an empty mailbox, without enqueuing it (spec section 4.1). -/
def TMNewTask (mgr : TaskMgr) : TaskMgr :=
  { mgr with latestId := mgr.latestId + 1,
             tasks := mgr.tasks ++ [⟨mgr.latestId + 1, []⟩] }

/-- Modelled from the spec: `Wakeup(id)` fails with NotFound for an
unknown id; waking an already-runnable task is a no-op; otherwise the
task is appended to the back of the run queue (spec section 4.1). -/
def TMWakeup (mgr : TaskMgr) (id : Nat) : TaskMgr × KError :=
  if hasTask mgr id then
    if id ∈ mgr.running then (mgr, KError.kSuccess)
    else ({ mgr with running := mgr.running ++ [id] }, KError.kSuccess)
  else (mgr, KError.kNotFound)

/-- Modelled from the spec: `Sleep(id)` fails with NotFound for an
unknown id; otherwise the task is removed from the run queue if present
(spec section 4.1). -/
def TMSleep (mgr : TaskMgr) (id : Nat) : TaskMgr × KError :=
  if hasTask mgr id then
    ({ mgr with running := mgr.running.erase id }, KError.kSuccess)
  else (mgr, KError.kNotFound)

/-- Append a message to the mailbox of the first task with the given id. -/
def deliver : List MTask → Nat → MMessage → List MTask
  | [], _, _ => []
  | t :: ts, id, m =>
    if t.id = id then { t with msgs := t.msgs ++ [m] } :: ts
    else t :: deliver ts id m

/-- Modelled from the spec: `SendMessage(id, msg)` fails with NotFound
for an unknown id and otherwise appends `msg` at the tail of the task's
FIFO mailbox and makes a sleeping recipient runnable as part of the same
call (spec sections 4.1 and 8). -/
def TMSendMessage (mgr : TaskMgr) (id : Nat) (m : MMessage) : TaskMgr × KError :=
  if hasTask mgr id then
    let mgr1 := { mgr with tasks := deliver mgr.tasks id m }
    ((TMWakeup mgr1 id).1, KError.kSuccess)
  else (mgr, KError.kNotFound)

/-- Modelled from the spec: `SwitchTask(current_sleep)` pops the front of
the run queue, requeues it at the back unless it is being put to sleep,
and dispatches to the new front (spec section 4.1).  The queue-empty case
is a fatal invariant violation and is modelled as a no-op. -/
def TMSwitchTask (mgr : TaskMgr) (currentSleep : Bool) : TaskMgr :=
  match mgr.running with
  | [] => mgr
  | f :: rest =>
    { mgr with running := if currentSleep then rest else rest ++ [f] }

/-- The mailbox of the task with the given id (empty if absent). -/
def mailboxOf (mgr : TaskMgr) (id : Nat) : List MMessage :=
  match mgr.tasks.find? (fun t => t.id == id) with
  | some t => t.msgs
  | none => []

/-- One scheduler operation of the sequences quantified over. -/
inductive TMOp where
  | newTask
  | sleep (id : Nat)
  | wakeup (id : Nat)
  | send (id : Nat) (m : MMessage)
  | switchTask (currentSleep : Bool)
deriving DecidableEq, Repr

/-- Execute one operation (the error result, if any, is reported to the
caller and does not change the state further). -/
def TMStep (mgr : TaskMgr) : TMOp → TaskMgr
  | TMOp.newTask => TMNewTask mgr
  | TMOp.sleep id => (TMSleep mgr id).1
  | TMOp.wakeup id => (TMWakeup mgr id).1
  | TMOp.send id m => (TMSendMessage mgr id m).1
  | TMOp.switchTask s => TMSwitchTask mgr s

/-- Execute a sequence of operations. -/
def TMRun (mgr : TaskMgr) (ops : List TMOp) : TaskMgr :=
  ops.foldl TMStep mgr

/-- The id of the always-runnable idle/background task present from
initialization on. -/
def idleTaskId : Nat := 1

/-- Modelled from the spec: the initialized task-manager state, owning
the always-present idle/background task, already runnable
(spec sections 4.1 and 8). -/
def initTaskMgr : TaskMgr :=
  { tasks := [⟨idleTaskId, []⟩], latestId := idleTaskId, running := [idleTaskId] }

/-- An operation respects the always-runnable idle task: the idle task is
never put to sleep, neither directly nor by yielding with
`current_sleep = true` while it is at the front. -/
def opOK (mgr : TaskMgr) : TMOp → Bool
  | TMOp.sleep id => id != idleTaskId
  | TMOp.switchTask true => mgr.running.head? != some idleTaskId
  | _ => true

/-- A sequence of operations respects the always-runnable idle task at
every step. -/
def runOK : TaskMgr → List TMOp → Bool
  | _, [] => true
  | mgr, op :: ops => opOK mgr op && runOK (TMStep mgr op) ops

/-- The scheduler invariant of spec sections 3 and 8: the run queue has
no duplicates, every queued id references a live task owned by the
manager, the idle task is runnable, and the queue is nonempty. -/
def TMInv (mgr : TaskMgr) : Prop :=
  mgr.running.Nodup ∧
  (∀ id ∈ mgr.running, hasTask mgr id = true) ∧
  idleTaskId ∈ mgr.running ∧
  mgr.running ≠ []

instance (mgr : TaskMgr) : Decidable (TMInv mgr) := by
  unfold TMInv
  infer_instance

/-! ## TerminalFileDescriptor::Read (terminal.cpp lines 688-718) -/

/-- Modelled from the spec: the left-Control modifier bit of the keyboard
collaborator (`keyboard.hpp`, not under `src/`). -/
def kLControlBitMask : Nat := 0x01

/-- Modelled from the spec: the right-Control modifier bit of the
keyboard collaborator (`keyboard.hpp`, not under `src/`). -/
def kRControlBitMask : Nat := 0x10

/-- C `toupper` on a byte value. -/
def toupperB (c : Nat) : Nat := if 97 ≤ c ∧ c ≤ 122 then c - 32 else c

/-- Whether a modifier byte carries a Control modifier
(`modifier & (kLControlBitMask | kRControlBitMask)`). -/
def isCtrl (modifier : Nat) : Bool :=
  modifier &&& (kLControlBitMask ||| kRControlBitMask) != 0

/-- The observable outcome of one `TerminalFileDescriptor::Read` call:
the returned length, the byte stored into the caller's buffer (if any),
and the strings echoed through `term_.Print`. -/
structure ReadOutcome where
  retval : Nat
  stored : Option Nat
  echoed : List (List Nat)
deriving DecidableEq, Repr

/-- `TerminalFileDescriptor::Read` as a function of the stream of
messages the task receives: the loop sleeps on an empty mailbox (`none`
when the stream is exhausted without a deciding key press), skips
non-keyboard and non-press messages, echoes `^X` for Control-modified
presses — returning 0 (EOT) when the keycode is 7 (the D key) —
and otherwise stores the single ASCII byte, echoes it and returns 1.
The requested length is ignored (the read transfers at most one byte). -/
def TFDRead : List MMessage → Option ReadOutcome
  | [] => none
  | m :: rest =>
    match m with
    | MMessage.keyPush modifier keycode ascii press =>
      if press then
        if isCtrl modifier then
          let echo := [94, toupperB ascii]
          if keycode = 7 then some ⟨0, none, [echo]⟩
          else
            match TFDRead rest with
            | none => none
            | some o => some { o with echoed := echo :: o.echoed }
        else some ⟨1, some ascii, [[ascii]]⟩
      else TFDRead rest
    | _ => TFDRead rest

/-- `Read(buf, len)` with its ignored length parameter. -/
def TFDReadLen (len : Nat) (msgs : List MMessage) : Option ReadOutcome :=
  TFDRead msgs

/-- Whether a message terminates the `Read` loop: a key press that is
either not Control-modified (stored and returned) or is Ctrl-D
(end of input). -/
def decides : MMessage → Bool
  | MMessage.keyPush modifier keycode _ press =>
    press && (!isCtrl modifier || keycode == 7)
  | _ => false

/-- The number of 4-KiB pages `CopyLoadSegments` maps for a program
header table: the sum of `(p_memsz + 4095) / 4096` over `PT_LOAD`
entries. -/
def pagesList : List Phdr → Nat
  | [] => 0
  | p :: rest =>
    (if p.p_type = PT_LOAD then ((p.p_memsz + 4095) % u64) / 4096 else 0)
      + pagesList rest

/-- The `last_addr` accumulator of `CopyLoadSegments`: the running
maximum of `p_vaddr + p_memsz` (64-bit) over `PT_LOAD` entries. -/
def loadEndFold : List Phdr → Nat → Nat
  | [], last => last
  | p :: rest, last =>
    loadEndFold rest
      (if p.p_type = PT_LOAD then max last ((p.p_vaddr + p.p_memsz) % u64) else last)

/-! ## Concrete states and inputs used by the witnesses -/

/-- A concrete message stream: a timer tick, a key release, a skipped
Ctrl-modified press, then the plain press of letter d (ascii 100). -/
def c10msgs : List MMessage :=
  [MMessage.timerTimeout 3 0, MMessage.keyPush 1 5 97 false,
   MMessage.keyPush 1 6 3 true, MMessage.keyPush 0 7 100 true]

/-- A manager with the idle task running and a second, sleeping task. -/
def c6mgr : TaskMgr :=
  { tasks := [⟨1, []⟩, ⟨2, [MMessage.windowActive true]⟩], latestId := 2,
    running := [1] }

/-- A concrete idle-respecting operation sequence: create a task, wake
it, message it, rotate twice, and put it back to sleep. -/
def c7ops : List TMOp :=
  [TMOp.newTask, TMOp.wakeup 2, TMOp.send 2 (MMessage.windowActive true),
   TMOp.switchTask false, TMOp.switchTask true, TMOp.sleep 2]

/-- A small kernel state: one boot root (frame 1) active, empty cache. -/
def kInit : Kernel :=
  { nextFrame := 10, freeFrames := 100, allocated := [1],
    content := fun _ _ => 0, cr3 := 1, taskCr3 := 1, appLoads := [],
    fileReads := 0, loadedSegs := [], dpBegin := 0, dpEnd := 0,
    fileMapEnd := 0, numFiles := 0 }

/-- A file whose first four bytes are not the ELF magic. -/
def badFile : FileEntry :=
  { id := 42, image := { e_ident := [0, 0, 0, 0], e_type := 2, e_entry := 0,
                         phdrs := [] } }

/-- A kernel state holding a cached canonical root (frame 2) for file 7. -/
def kCached : Kernel :=
  { nextFrame := 10, freeFrames := 50, allocated := [1, 2],
    content := fun g i => if g = 2 then i + 1000 else 0, cr3 := 1, taskCr3 := 1,
    appLoads := [(7, ⟨0xffff800000000200, 0xffff800000000040, 2⟩)],
    fileReads := 3, loadedSegs := [], dpBegin := 0, dpEnd := 0,
    fileMapEnd := 0, numFiles := 0 }

/-- The cached file identity used in the C2 witness. -/
def cachedFile : FileEntry :=
  { id := 7, image := { e_ident := [0x7f, 0x45, 0x4c, 0x46], e_type := 2,
                        e_entry := 0xffff800000000040,
                        phdrs := [] } }

/-- A file with a valid magic but a non-executable type field. -/
def badTypeFile : FileEntry :=
  { id := 43, image := { e_ident := [0x7f, 0x45, 0x4c, 0x46], e_type := 3,
                         e_entry := 0, phdrs := [] } }

/-- A loadable executable: valid magic, `ET_EXEC`, one `PT_LOAD` segment
in the canonical higher half of 0x180 bytes. -/
def goodFile : FileEntry :=
  { id := 50, image := { e_ident := [0x7f, 0x45, 0x4c, 0x46], e_type := 2,
                         e_entry := 0xffff800000000040,
                         phdrs := [⟨1, 0, 0xffff800000000000, 0x100, 0x180⟩] } }

/-- A kernel state holding a cached canonical root (frame 2) for
`goodFile`, with the cached `load_end` equal to the image's `PT_LOAD`
end maximum (the value the miss path stores), so a repeated launch of
`goodFile` takes the cache-hit path. -/
def kCachedGood : Kernel :=
  { nextFrame := 10, freeFrames := 100, allocated := [1, 2],
    content := fun _ _ => 0, cr3 := 1, taskCr3 := 1,
    appLoads := [(50, ⟨0xffff800000000180, 0xffff800000000040, 2⟩)],
    fileReads := 1, loadedSegs := [], dpBegin := 0, dpEnd := 0,
    fileMapEnd := 0, numFiles := 0 }

/-- The command-name token and first-argument token list of the C5
witness: 32 single-letter tokens. -/
def c5buf : List Nat := List.flatten (List.replicate 32 [97, 32])


/-- The inductive core of the `TerminalFileDescriptor::Read` analysis:
the loop returns at most one byte (after at least one echo), blocks when
no deciding key press ever arrives, and the first deciding press
determines the outcome, including the final echoed string. -/
theorem TFDRead_characterization (msgs : List MMessage) :
    (∀ o : ReadOutcome, TFDRead msgs = some o →
      o.retval ≤ 1 ∧ o.echoed ≠ []) ∧
    (msgs.find? decides = none → TFDRead msgs = none) ∧
    (∀ mo kc a p, msgs.find? decides = some (MMessage.keyPush mo kc a p) →
      ∃ o : ReadOutcome, TFDRead msgs = some o ∧
        (if isCtrl mo then
          kc = 7 ∧ o.retval = 0 ∧ o.stored = none ∧
            o.echoed.getLast? = some [94, toupperB a]
         else o.retval = 1 ∧ o.stored = some a ∧
            o.echoed.getLast? = some [a])) := by
  induction msgs with
  | nil =>
    refine ⟨?_, ?_, ?_⟩
    · intro o h; simp [TFDRead] at h
    · intro _; rfl
    · intro mo kc a p h; simp at h
  | cons m rest ih =>
    obtain ⟨ih1, ih2, ih3⟩ := ih
    cases m with
    | keyPush mo kc a p =>
      cases p with
      | false =>
        have hd : decides (MMessage.keyPush mo kc a false) = false := by
          simp [decides]
        refine ⟨?_, ?_, ?_⟩
        · intro o h
          simp only [TFDRead, if_neg (by simp : ¬ (false = true))] at h
          exact ih1 o h
        · intro h
          rw [List.find?_cons, hd] at h
          simp only [TFDRead, if_neg (by simp : ¬ (false = true))]
          exact ih2 h
        · intro mo' kc' a' p' h
          rw [List.find?_cons, hd] at h
          simp only [TFDRead, if_neg (by simp : ¬ (false = true))]
          exact ih3 mo' kc' a' p' h
      | true =>
        by_cases hc : isCtrl mo = true
        · by_cases hk : kc = 7
          · subst hk
            have hr : TFDRead (MMessage.keyPush mo 7 a true :: rest) =
                some ⟨0, none, [[94, toupperB a]]⟩ := by
              simp [TFDRead, hc]
            have hd : decides (MMessage.keyPush mo 7 a true) = true := by
              simp [decides, hc]
            refine ⟨?_, ?_, ?_⟩
            · intro o h; rw [hr] at h
              cases h
              exact ⟨Nat.zero_le 1, by simp⟩
            · intro h; rw [List.find?_cons, hd] at h; cases h
            · intro mo' kc' a' p' h
              rw [List.find?_cons, hd] at h
              injection h with h'
              injection h' with h1 h2 h3 h4
              subst h1; subst h2; subst h3
              exact ⟨⟨0, none, [[94, toupperB a]]⟩, hr, by simp [hc]⟩
          · have hd : decides (MMessage.keyPush mo kc a true) = false := by
              simp [decides, hc, hk]
            have hr : TFDRead (MMessage.keyPush mo kc a true :: rest) =
                match TFDRead rest with
                | none => none
                | some o => some { o with echoed := [94, toupperB a] :: o.echoed } := by
              simp [TFDRead, hc, hk]
            refine ⟨?_, ?_, ?_⟩
            · intro o h
              rw [hr] at h
              cases hrest : TFDRead rest with
              | none => rw [hrest] at h; cases h
              | some o' =>
                rw [hrest] at h
                cases h
                exact ⟨(ih1 o' hrest).1, by simp⟩
            · intro h
              rw [List.find?_cons, hd] at h
              rw [hr, ih2 h]
            · intro mo' kc' a' p' h
              rw [List.find?_cons, hd] at h
              obtain ⟨o, ho, hprop⟩ := ih3 mo' kc' a' p' h
              have hne : o.echoed ≠ [] := (ih1 o ho).2
              have hlast : ([94, toupperB a] :: o.echoed).getLast?
                  = o.echoed.getLast? := by
                cases he : o.echoed with
                | nil => exact absurd he hne
                | cons b l' => rw [List.getLast?_cons_cons]
              refine ⟨{ o with echoed := [94, toupperB a] :: o.echoed }, ?_, ?_⟩
              · rw [hr, ho]
              · cases hcc : isCtrl mo' with
                | true =>
                  rw [hcc] at hprop
                  simp only [if_true] at hprop ⊢
                  exact ⟨hprop.1, hprop.2.1, hprop.2.2.1, by
                    simp only [hlast]
                    exact hprop.2.2.2⟩
                | false =>
                  rw [hcc] at hprop
                  simp only [if_false] at hprop ⊢
                  exact ⟨hprop.1, hprop.2.1, by
                    simp only [hlast]
                    exact hprop.2.2⟩
        · have hc' : isCtrl mo = false := by
            cases h : isCtrl mo
            · rfl
            · exact absurd h hc
          have hr : TFDRead (MMessage.keyPush mo kc a true :: rest) =
              some ⟨1, some a, [[a]]⟩ := by
            simp [TFDRead, hc']
          have hd : decides (MMessage.keyPush mo kc a true) = true := by
            simp [decides, hc']
          refine ⟨?_, ?_, ?_⟩
          · intro o h; rw [hr] at h
            cases h
            exact ⟨le_refl 1, by simp⟩
          · intro h; rw [List.find?_cons, hd] at h; cases h
          · intro mo' kc' a' p' h
            rw [List.find?_cons, hd] at h
            injection h with h'
            injection h' with h1 h2 h3 h4
            subst h1; subst h3
            exact ⟨⟨1, some a, [[a]]⟩, hr, by simp [hc']⟩
    | timerTimeout t v =>
      refine ⟨?_, ?_, ?_⟩
      · intro o h; exact ih1 o h
      · intro h
        rw [List.find?_cons] at h
        simp only [decides] at h
        exact ih2 h
      · intro mo' kc' a' p' h
        rw [List.find?_cons] at h
        simp only [decides] at h
        exact ih3 mo' kc' a' p' h
    | layer op lid =>
      refine ⟨?_, ?_, ?_⟩
      · intro o h; exact ih1 o h
      · intro h
        rw [List.find?_cons] at h
        simp only [decides] at h
        exact ih2 h
      · intro mo' kc' a' p' h
        rw [List.find?_cons] at h
        simp only [decides] at h
        exact ih3 mo' kc' a' p' h
    | windowActive act =>
      refine ⟨?_, ?_, ?_⟩
      · intro o h; exact ih1 o h
      · intro h
        rw [List.find?_cons] at h
        simp only [decides] at h
        exact ih2 h
      · intro mo' kc' a' p' h
        rw [List.find?_cons] at h
        simp only [decides] at h
        exact ih3 mo' kc' a' p' h

/-- Claim C10: `TerminalFileDescriptor::Read` returns at most one byte
per call regardless of the requested length, loops past non-press and
non-keyboard messages until a deciding key press arrives (blocking
forever otherwise), returns 0 exactly when that press carries a Control
modifier — which by the loop structure forces keycode 7 (Ctrl-D) —
after echoing `^D`, echoes `^X` for and skips other Control-modified
presses, and otherwise stores the single ASCII byte, echoes it and
returns 1. -/
theorem claim10_tfd_read (msgs : List MMessage) (len len' : Nat) :
    TFDReadLen len msgs = TFDReadLen len' msgs ∧
    (∀ o : ReadOutcome, TFDRead msgs = some o →
      o.retval ≤ 1 ∧ o.echoed ≠ []) ∧
    (msgs.find? decides = none → TFDRead msgs = none) ∧
    (∀ mo kc a p, msgs.find? decides = some (MMessage.keyPush mo kc a p) →
      ∃ o : ReadOutcome, TFDRead msgs = some o ∧
        (if isCtrl mo then
          kc = 7 ∧ o.retval = 0 ∧ o.stored = none ∧
            o.echoed.getLast? = some [94, toupperB a]
         else o.retval = 1 ∧ o.stored = some a ∧
            o.echoed.getLast? = some [a])) :=
  ⟨rfl, TFDRead_characterization msgs⟩

/-- Witness for C10: on `c10msgs` the deciding press is the plain `d`
press, so the read returns 1, stores byte 100 and echoes it last. -/
theorem claim10_tfd_read_witness :
    ∃ o : ReadOutcome, TFDRead c10msgs = some o ∧
      (if isCtrl 0 then
        (7 : Nat) = 7 ∧ o.retval = 0 ∧ o.stored = none ∧
          o.echoed.getLast? = some [94, toupperB 100]
       else o.retval = 1 ∧ o.stored = some 100 ∧
          o.echoed.getLast? = some [100]) :=
  (claim10_tfd_read c10msgs 0 5).2.2.2 0 7 100 true rfl
theorem find?_deliver_self (ts : List MTask) (id : Nat) (m : MMessage) :
    (deliver ts id m).find? (fun t => t.id == id) =
      (ts.find? (fun t => t.id == id)).map
        (fun t => { t with msgs := t.msgs ++ [m] }) := by
  induction ts with
  | nil => rfl
  | cons t ts ih =>
    by_cases h : t.id = id
    · simp [deliver, h, List.find?_cons]
    · simp only [deliver, if_neg h, List.find?_cons]
      have hb : (t.id == id) = false := by simpa using h
      simp [hb, ih]

/-- Delivering to `id` does not affect lookups for any other id. -/
theorem find?_deliver_other (ts : List MTask) (id id' : Nat) (m : MMessage)
    (h : id' ≠ id) :
    (deliver ts id m).find? (fun t => t.id == id') =
      ts.find? (fun t => t.id == id') := by
  induction ts with
  | nil => rfl
  | cons t ts ih =>
    by_cases ht : t.id = id
    · have hb : (id == id') = false := beq_eq_false_iff_ne.2 (Ne.symm h)
      have hb' : (t.id == id') = false := by rw [ht]; exact hb
      simp [deliver, ht, List.find?_cons, hb, hb']
    · simp only [deliver, if_neg ht, List.find?_cons]
      by_cases hb : t.id = id'
      · simp [hb]
      · have hb' : (t.id == id') = false := by simpa using hb
        simp [hb', ih]

/-- Delivering a message preserves which task ids exist. -/
theorem any_deliver (ts : List MTask) (id x : Nat) (m : MMessage) :
    (deliver ts id m).any (fun t => t.id == x) = ts.any (fun t => t.id == x) := by
  induction ts with
  | nil => rfl
  | cons t ts ih =>
    by_cases h : t.id = id
    · simp [deliver, h]
    · simp [deliver, if_neg h, ih]

/-- Claim C6: `TaskManager::SendMessage(id, msg)` returns NotFound and
changes nothing when no task has the id; otherwise it appends `msg` at
the tail of exactly that task's FIFO mailbox (one more message, `msg`
last, all other mailboxes unchanged) and makes a sleeping recipient
runnable in the same call. -/
theorem claim6_send_message (mgr : TaskMgr) (id : Nat) (m : MMessage) :
    (hasTask mgr id = false → TMSendMessage mgr id m = (mgr, KError.kNotFound)) ∧
    (hasTask mgr id = true →
      (TMSendMessage mgr id m).2 = KError.kSuccess ∧
      mailboxOf (TMSendMessage mgr id m).1 id = mailboxOf mgr id ++ [m] ∧
      (mailboxOf (TMSendMessage mgr id m).1 id).length
        = (mailboxOf mgr id).length + 1 ∧
      (mailboxOf (TMSendMessage mgr id m).1 id).getLast? = some m ∧
      (∀ id', id' ≠ id →
        mailboxOf (TMSendMessage mgr id m).1 id' = mailboxOf mgr id') ∧
      (id ∉ mgr.running → (TMSendMessage mgr id m).1.running = mgr.running ++ [id]) ∧
      id ∈ (TMSendMessage mgr id m).1.running) := by
  constructor
  · intro h
    simp [TMSendMessage, h]
  · intro h
    have hres1 : (TMSendMessage mgr id m).1 =
        (TMWakeup { mgr with tasks := deliver mgr.tasks id m } id).1 := by
      simp [TMSendMessage, h]
    have hres2 : (TMSendMessage mgr id m).2 = KError.kSuccess := by
      simp [TMSendMessage, h]
    have hhas1 : hasTask { mgr with tasks := deliver mgr.tasks id m } id = true := by
      simpa [hasTask, any_deliver] using h
    have htasks : (TMSendMessage mgr id m).1.tasks = deliver mgr.tasks id m := by
      rw [hres1]
      by_cases hr : id ∈ mgr.running
      · simp [TMWakeup, hhas1, hr]
      · simp [TMWakeup, hhas1, hr]
    cases ht : mgr.tasks.find? (fun t => t.id == id) with
    | none =>
      exfalso
      rw [List.find?_eq_none] at ht
      obtain ⟨x, hx, hpx⟩ := List.any_eq_true.1 h
      exact ht x hx hpx
    | some t =>
      have hmb0 : mailboxOf (TMSendMessage mgr id m).1 id = t.msgs ++ [m] := by
        simp only [mailboxOf, htasks, find?_deliver_self, ht, Option.map_some']
      have hmbmgr : mailboxOf mgr id = t.msgs := by
        simp only [mailboxOf, ht]
      refine ⟨hres2, ?_, ?_, ?_, ?_, ?_, ?_⟩
      · rw [hmb0, hmbmgr]
      · rw [hmb0, hmbmgr]; simp
      · rw [hmb0]; simp
      · intro id' hne
        simp only [mailboxOf, htasks, find?_deliver_other mgr.tasks id id' m hne]
      · intro hr
        rw [hres1]
        simp [TMWakeup, hhas1, hr]
      · rw [hres1]
        by_cases hr : id ∈ mgr.running
        · simp [TMWakeup, hhas1, hr]
        · simp [TMWakeup, hhas1, hr]

/-- Witness for C6: sending to the sleeping task 2 appends the message
to its mailbox and wakes it. -/
theorem claim6_send_message_witness :
    (TMSendMessage c6mgr 2 (MMessage.timerTimeout 5 1)).2 = KError.kSuccess ∧
    mailboxOf (TMSendMessage c6mgr 2 (MMessage.timerTimeout 5 1)).1 2
      = mailboxOf c6mgr 2 ++ [MMessage.timerTimeout 5 1] ∧
    (TMSendMessage c6mgr 2 (MMessage.timerTimeout 5 1)).1.running = [1] ++ [2] := by
  have h := (claim6_send_message c6mgr 2 (MMessage.timerTimeout 5 1)).2 (by decide)
  refine ⟨h.1, h.2.1, ?_⟩
  exact h.2.2.2.2.2.1 (by decide)

/-- `Wakeup` preserves the scheduler invariant. -/
theorem TMWakeup_inv (mgr : TaskMgr) (id : Nat) (hinv : TMInv mgr) :
    TMInv (TMWakeup mgr id).1 := by
  obtain ⟨hnd, hlive, hidle, hne⟩ := hinv
  by_cases hh : hasTask mgr id = true
  · by_cases hr : id ∈ mgr.running
    · have hres : (TMWakeup mgr id).1 = mgr := by simp [TMWakeup, hh, hr]
      rw [hres]; exact ⟨hnd, hlive, hidle, hne⟩
    · have hres : (TMWakeup mgr id).1 =
          { mgr with running := mgr.running ++ [id] } := by
        simp [TMWakeup, hh, hr]
      rw [hres]
      refine ⟨?_, ?_, ?_, ?_⟩
      · refine List.Nodup.append hnd (List.nodup_singleton id) ?_
        intro x hx hx2
        simp only [List.mem_singleton] at hx2
        subst hx2
        exact hr hx
      · intro x hx
        rcases List.mem_append.1 hx with hx1 | hx2
        · exact hlive x hx1
        · simp only [List.mem_singleton] at hx2
          subst hx2
          exact hh
      · exact List.mem_append.2 (Or.inl hidle)
      · simp
  · have hh' : hasTask mgr id = false := by
      cases h : hasTask mgr id
      · rfl
      · exact absurd h hh
    have hres : (TMWakeup mgr id).1 = mgr := by simp [TMWakeup, hh']
    rw [hres]; exact ⟨hnd, hlive, hidle, hne⟩

/-- Each idle-respecting step preserves the scheduler invariant. -/
theorem TMStep_inv (mgr : TaskMgr) (op : TMOp) (hinv : TMInv mgr)
    (hok : opOK mgr op = true) : TMInv (TMStep mgr op) := by
  obtain ⟨hnd, hlive, hidle, hne⟩ := hinv
  cases op with
  | newTask =>
    refine ⟨hnd, ?_, hidle, hne⟩
    intro x hx
    have hx' := hlive x hx
    simp only [hasTask] at hx'
    simp [TMStep, TMNewTask, hasTask, List.any_append, hx']
  | sleep id =>
    have hid : id ≠ idleTaskId := by simpa [opOK] using hok
    by_cases hh : hasTask mgr id = true
    · have hres : TMStep mgr (TMOp.sleep id) =
          { mgr with running := mgr.running.erase id } := by
        simp [TMStep, TMSleep, hh]
      rw [hres]
      have hidle' : idleTaskId ∈ mgr.running.erase id :=
        (List.mem_erase_of_ne (Ne.symm hid)).2 hidle
      refine ⟨hnd.erase id, ?_, hidle', ?_⟩
      · intro x hx
        exact hlive x (List.mem_of_mem_erase hx)
      · exact List.ne_nil_of_mem hidle'
    · have hh' : hasTask mgr id = false := by
        cases h : hasTask mgr id
        · rfl
        · exact absurd h hh
      have hres : TMStep mgr (TMOp.sleep id) = mgr := by
        simp [TMStep, TMSleep, hh']
      rw [hres]; exact ⟨hnd, hlive, hidle, hne⟩
  | wakeup id => exact TMWakeup_inv mgr id ⟨hnd, hlive, hidle, hne⟩
  | send id m =>
    by_cases hh : hasTask mgr id = true
    · have hres : TMStep mgr (TMOp.send id m) =
          (TMWakeup { mgr with tasks := deliver mgr.tasks id m } id).1 := by
        simp [TMStep, TMSendMessage, hh]
      rw [hres]
      refine TMWakeup_inv _ id ⟨hnd, ?_, hidle, hne⟩
      intro x hx
      have := hlive x hx
      simpa [hasTask, any_deliver] using this
    · have hh' : hasTask mgr id = false := by
        cases h : hasTask mgr id
        · rfl
        · exact absurd h hh
      have hres : TMStep mgr (TMOp.send id m) = mgr := by
        simp [TMStep, TMSendMessage, hh']
      rw [hres]; exact ⟨hnd, hlive, hidle, hne⟩
  | switchTask s =>
    cases hrun : mgr.running with
    | nil => exact absurd hrun hne
    | cons f rest =>
      have hnd2 : (f :: rest).Nodup := by rw [← hrun]; exact hnd
      have hidle2 : idleTaskId ∈ f :: rest := by rw [← hrun]; exact hidle
      have hlive2 : ∀ x ∈ f :: rest, hasTask mgr x = true := by
        intro x hx
        refine hlive x ?_
        rw [hrun]
        exact hx
      have hndr : rest.Nodup := (List.nodup_cons.1 hnd2).2
      have hfn : f ∉ rest := (List.nodup_cons.1 hnd2).1
      cases s with
      | true =>
        have hf : f ≠ idleTaskId := by
          simp only [opOK, hrun, List.head?_cons, bne_iff_ne, ne_eq,
            Option.some.injEq] at hok
          exact hok
        have hres : TMStep mgr (TMOp.switchTask true) =
            { mgr with running := rest } := by
          simp [TMStep, TMSwitchTask, hrun]
        rw [hres]
        have hidle' : idleTaskId ∈ rest := by
          rcases List.mem_cons.1 hidle2 with h1 | h2
          · exact absurd h1.symm hf
          · exact h2
        refine ⟨hndr, ?_, hidle', ?_⟩
        · intro x hx
          exact hlive2 x (List.mem_cons_of_mem f hx)
        · exact List.ne_nil_of_mem hidle'
      | false =>
        have hres : TMStep mgr (TMOp.switchTask false) =
            { mgr with running := rest ++ [f] } := by
          simp [TMStep, TMSwitchTask, hrun]
        rw [hres]
        refine ⟨?_, ?_, ?_, ?_⟩
        · refine List.Nodup.append hndr (List.nodup_singleton f) ?_
          intro x hx hx2
          simp only [List.mem_singleton] at hx2
          subst hx2
          exact hfn hx
        · intro x hx
          rcases List.mem_append.1 hx with hx1 | hx2
          · exact hlive2 x (List.mem_cons_of_mem f hx1)
          · simp only [List.mem_singleton] at hx2
            subst hx2
            exact hlive2 x (List.mem_cons_self x rest)
        · rcases List.mem_cons.1 hidle2 with h1 | h2
          · exact List.mem_append.2 (Or.inr (by simp [h1]))
          · exact List.mem_append.2 (Or.inl h2)
        · simp

/-- Claim C7: for every sequence of idle-respecting TaskManager
operations (NewTask, Sleep, Wakeup, SendMessage, SwitchTask) from the
initialized state with its always-runnable idle task, at every prefix —
in particular immediately after every SwitchTask step — the run queue
holds no duplicates, references only live tasks owned by the manager,
still holds the idle task, and is nonempty. -/
theorem claim7_run_queue_invariant (ops : List TMOp)
    (h : runOK initTaskMgr ops = true) (i : Nat) :
    TMInv (TMRun initTaskMgr (ops.take i)) := by
  have hinit : TMInv initTaskMgr := by decide
  have main : ∀ (l : List TMOp) (mgr : TaskMgr), TMInv mgr →
      runOK mgr l = true → ∀ j, TMInv (TMRun mgr (l.take j)) := by
    intro l
    induction l with
    | nil =>
      intro mgr hm _ j
      simp only [List.take_nil, TMRun, List.foldl_nil]
      exact hm
    | cons op l ih =>
      intro mgr hm hok j
      simp only [runOK, Bool.and_eq_true] at hok
      obtain ⟨hok1, hok2⟩ := hok
      cases j with
      | zero =>
        simp only [List.take_zero, TMRun, List.foldl_nil]
        exact hm
      | succ j =>
        simp only [List.take_succ_cons, TMRun, List.foldl_cons]
        exact ih (TMStep mgr op) (TMStep_inv mgr op hm hok1) hok2 j
  exact main ops initTaskMgr hinit h i

/-- Witness for C7: the invariant holds after running the whole concrete
sequence. -/
theorem claim7_run_queue_invariant_witness :
    TMInv (TMRun initTaskMgr (c7ops.take 6)) :=
  claim7_run_queue_invariant c7ops (by decide) 6

/-- On a cache miss with a bad ELF magic, `LoadApp` has already run
`SetupPML4` (allocating and installing a fresh root) and read the file,
and then fails with `kInvalidFile`, caching nothing. -/
theorem LoadApp_badMagic (k : Kernel) (fe : FileEntry)
    (hfree : 1 ≤ k.freeFrames)
    (hcache : lookupCache k.appLoads fe.id = none)
    (hmagic : fe.image.e_ident.take 4 ≠ elfMagic) :
    (LoadApp k fe).1 = (⟨0, 0, 0⟩, KError.kInvalidFile) ∧
    (LoadApp k fe).2.appLoads = k.appLoads ∧
    (LoadApp k fe).2.taskCr3 = k.nextFrame ∧
    (LoadApp k fe).2.cr3 = k.nextFrame ∧
    (LoadApp k fe).2.allocated = k.allocated ++ [k.nextFrame] ∧
    (LoadApp k fe).2.fileReads = k.fileReads + 1 := by
  have hfz : ¬ (k.freeFrames = 0) := by omega
  simp [LoadApp, SetupPML4, NewPageMap, hfz, hcache, hmagic]

/-- Counterexample to C3 as stated: loading a non-ELF file fails with
`kInvalidFile`, not `kInvalidFormat`. -/
theorem claim3_counterexample :
    (LoadApp kInit badFile).1.2 = KError.kInvalidFile ∧
    (LoadApp kInit badFile).1.2 ≠ KError.kInvalidFormat := by
  decide

/-- Claim C3 (amended): for every file not already in the load cache
whose first four bytes are not the ELF magic (given a frame for the
private root), `LoadApp` fails with `kInvalidFile`; the returned
`AppLoadInfo` is the empty default and nothing is cached. -/
theorem claim3_invalid_magic (k : Kernel) (fe : FileEntry)
    (hfree : 1 ≤ k.freeFrames)
    (hcache : lookupCache k.appLoads fe.id = none)
    (hmagic : fe.image.e_ident.take 4 ≠ elfMagic) :
    (LoadApp k fe).1 = (⟨0, 0, 0⟩, KError.kInvalidFile) ∧
    (LoadApp k fe).2.appLoads = k.appLoads :=
  ⟨(LoadApp_badMagic k fe hfree hcache hmagic).1,
   (LoadApp_badMagic k fe hfree hcache hmagic).2.1⟩

/-- Witness for C3 (amended) at the concrete bad-magic file. -/
theorem claim3_invalid_magic_witness :
    (LoadApp kInit badFile).1 = (⟨0, 0, 0⟩, KError.kInvalidFile) ∧
    (LoadApp kInit badFile).2.appLoads = kInit.appLoads :=
  claim3_invalid_magic kInit badFile (by decide) (by decide) (by decide)

/-- Counterexample to C1 as stated: the exec attempt on a non-ELF file
aborts with an error, yet the caller's CR3 and saved context root have
been redirected to the half-built private root and the frame allocated
for it during the failed attempt is still held. -/
theorem claim1_counterexample :
    (ExecuteFile kInit badFile [99] none).1 = Except.error KError.kInvalidFile ∧
    (ExecuteFile kInit badFile [99] none).2.taskCr3 ≠ kInit.taskCr3 ∧
    (ExecuteFile kInit badFile [99] none).2.cr3 ≠ kInit.cr3 ∧
    (ExecuteFile kInit badFile [99] none).2.allocated ≠ kInit.allocated := by
  decide

/-- `ExecuteFile` propagates a `LoadApp` failure unchanged. -/
theorem ExecuteFile_loadErr (k : Kernel) (fe : FileEntry) (cmd : List Nat)
    (fa : Option (List Nat)) (al : AppLoadInfo) (e0 : KError) (k0 : Kernel)
    (hl : LoadApp k fe = ((al, e0), k0)) (hng : ¬ (e0 = KError.kSuccess)) :
    ExecuteFile k fe cmd fa = (Except.error e0, k0) := by
  unfold ExecuteFile
  rw [hl]
  simp only [if_neg hng]

/-- Claim C1 (amended): a loader failure aborts `ExecuteFile` with the
error, but when the failure strikes after `SetupPML4` has already
installed the fresh root (here: invalid magic on a cache miss), the
task's CR3 and `Context().cr3` are left pointing at that newly allocated
root — not the previous one — and the root's frame remains allocated
(leaked) rather than being reclaimed. -/
theorem claim1_failed_exec_state (k : Kernel) (fe : FileEntry)
    (cmd : List Nat) (fa : Option (List Nat))
    (hfree : 1 ≤ k.freeFrames)
    (hcache : lookupCache k.appLoads fe.id = none)
    (hmagic : fe.image.e_ident.take 4 ≠ elfMagic)
    (hfresh : k.taskCr3 ≠ k.nextFrame) :
    (ExecuteFile k fe cmd fa).1 = Except.error KError.kInvalidFile ∧
    (ExecuteFile k fe cmd fa).2.taskCr3 = k.nextFrame ∧
    (ExecuteFile k fe cmd fa).2.cr3 = k.nextFrame ∧
    (ExecuteFile k fe cmd fa).2.taskCr3 ≠ k.taskCr3 ∧
    (ExecuteFile k fe cmd fa).2.allocated = k.allocated ++ [k.nextFrame] := by
  obtain ⟨h1, h2, h3, h4, h5, h6⟩ := LoadApp_badMagic k fe hfree hcache hmagic
  rcases hl : LoadApp k fe with ⟨⟨al, e0⟩, k0⟩
  rw [hl] at h1 h3 h4 h5
  have he0 : e0 = KError.kInvalidFile := congrArg Prod.snd h1
  have hng : ¬ (e0 = KError.kSuccess) := by rw [he0]; decide
  rw [ExecuteFile_loadErr k fe cmd fa al e0 k0 hl hng]
  exact ⟨by rw [he0], h3, h4, by rw [h3]; exact Ne.symm hfresh, h5⟩

/-- The cache-hit path of `LoadApp`: one fresh frame becomes the private
root, slots `[4, 256)` are aliased from the cached canonical root, no
file is read and nothing else changes. -/
theorem LoadApp_cacheHit (k : Kernel) (fe : FileEntry) (cached : AppLoadInfo)
    (hfz : ¬ (k.freeFrames = 0))
    (hcache : lookupCache k.appLoads fe.id = some cached) :
    (LoadApp k fe).1 = ({ cached with pml4 := k.nextFrame }, KError.kSuccess) ∧
    (LoadApp k fe).2.appLoads = k.appLoads ∧
    (LoadApp k fe).2.nextFrame = k.nextFrame + 1 ∧
    (LoadApp k fe).2.freeFrames = k.freeFrames - 1 ∧
    (LoadApp k fe).2.fileReads = k.fileReads ∧
    (LoadApp k fe).2.allocated = k.allocated ++ [k.nextFrame] ∧
    (∀ g i, g ≠ k.nextFrame → (LoadApp k fe).2.content g i = k.content g i) ∧
    (∀ i, 4 ≤ i → i < 256 → cached.pml4 ≠ k.nextFrame →
      (LoadApp k fe).2.content k.nextFrame i = k.content cached.pml4 i) := by
  refine ⟨?_, ?_, ?_, ?_, ?_, ?_, ?_, ?_⟩
  · simp [LoadApp, SetupPML4, NewPageMap, CopyPageMaps, hfz, hcache]
  · simp [LoadApp, SetupPML4, NewPageMap, CopyPageMaps, hfz, hcache]
  · simp [LoadApp, SetupPML4, NewPageMap, CopyPageMaps, hfz, hcache]
  · simp [LoadApp, SetupPML4, NewPageMap, CopyPageMaps, hfz, hcache]
  · simp [LoadApp, SetupPML4, NewPageMap, CopyPageMaps, hfz, hcache]
  · simp [LoadApp, SetupPML4, NewPageMap, CopyPageMaps, hfz, hcache]
  · intro g i hg
    simp [LoadApp, SetupPML4, NewPageMap, CopyPageMaps, hfz, hcache, hg]
  · intro i h4 h256 hne
    simp [LoadApp, SetupPML4, NewPageMap, CopyPageMaps, hfz, hcache, h4, h256, hne]

/-- Claim C2: on a cache hit, `LoadApp` does no file I/O, allocates
exactly one fresh top-level frame, aliases slots `[4, 256)` from the
cached canonical root into it, and returns the cached `load_end` and
entry point with that private root; two consecutive loads of the same
identity return distinct top-level frames whose `[4, 256)` slots hold
identical entries. -/
theorem claim2_cache_hit_load (k : Kernel) (fe : FileEntry)
    (cached : AppLoadInfo)
    (hcache : lookupCache k.appLoads fe.id = some cached)
    (hfree : 2 ≤ k.freeFrames)
    (hlt : cached.pml4 < k.nextFrame) :
    (LoadApp k fe).1 = ({ cached with pml4 := k.nextFrame }, KError.kSuccess) ∧
    (LoadApp k fe).2.fileReads = k.fileReads ∧
    (LoadApp k fe).2.allocated = k.allocated ++ [k.nextFrame] ∧
    (∀ i, 4 ≤ i → i < 256 →
      (LoadApp k fe).2.content k.nextFrame i = k.content cached.pml4 i) ∧
    (LoadApp (LoadApp k fe).2 fe).1.1.pml4 = k.nextFrame + 1 ∧
    (LoadApp (LoadApp k fe).2 fe).1.1.pml4 ≠ (LoadApp k fe).1.1.pml4 ∧
    (∀ i, 4 ≤ i → i < 256 →
      (LoadApp (LoadApp k fe).2 fe).2.content (k.nextFrame + 1) i
        = (LoadApp (LoadApp k fe).2 fe).2.content k.nextFrame i) := by
  have hfz : ¬ (k.freeFrames = 0) := by omega
  obtain ⟨a1, a2, a3, a4, a5, a6, a7, a8⟩ := LoadApp_cacheHit k fe cached hfz hcache
  have hne1 : cached.pml4 ≠ k.nextFrame := Nat.ne_of_lt hlt
  have hcache2 : lookupCache (LoadApp k fe).2.appLoads fe.id = some cached := by
    rw [a2]; exact hcache
  have hfz2 : ¬ ((LoadApp k fe).2.freeFrames = 0) := by rw [a4]; omega
  obtain ⟨b1, b2, b3, b4, b5, b6, b7, b8⟩ :=
    LoadApp_cacheHit (LoadApp k fe).2 fe cached hfz2 hcache2
  have hroot1 : (LoadApp k fe).1.1.pml4 = k.nextFrame := by rw [a1]
  have hroot2 : (LoadApp (LoadApp k fe).2 fe).1.1.pml4 = k.nextFrame + 1 := by
    rw [b1, a3]
  refine ⟨a1, a5, a6, ?_, hroot2, ?_, ?_⟩
  · intro i h4 h256
    exact a8 i h4 h256 hne1
  · rw [hroot2, hroot1]
    omega
  · intro i h4 h256
    have hne2 : cached.pml4 ≠ (LoadApp k fe).2.nextFrame := by rw [a3]; omega
    have hr12 : k.nextFrame ≠ (LoadApp k fe).2.nextFrame := by rw [a3]; omega
    have e1 : (LoadApp (LoadApp k fe).2 fe).2.content (k.nextFrame + 1) i
        = (LoadApp k fe).2.content cached.pml4 i := by
      have := b8 i h4 h256 hne2
      rw [a3] at this
      exact this
    have e2 : (LoadApp k fe).2.content cached.pml4 i = k.content cached.pml4 i :=
      a7 cached.pml4 i hne1
    have e3 : (LoadApp (LoadApp k fe).2 fe).2.content k.nextFrame i
        = (LoadApp k fe).2.content k.nextFrame i :=
      b7 k.nextFrame i hr12
    have e4 : (LoadApp k fe).2.content k.nextFrame i = k.content cached.pml4 i :=
      a8 i h4 h256 hne1
    rw [e1, e2, e3, e4]

/-- Witness for C2 at a concrete cached state: the hit returns the
cached info with the fresh private root 10 and reads no file. -/
theorem claim2_cache_hit_load_witness :
    (LoadApp kCached cachedFile).1
      = ({ vaddr_end := 0xffff800000000200, entry := 0xffff800000000040,
           pml4 := kCached.nextFrame }, KError.kSuccess) ∧
    (LoadApp kCached cachedFile).2.fileReads = kCached.fileReads ∧
    (LoadApp (LoadApp kCached cachedFile).2 cachedFile).1.1.pml4
      = kCached.nextFrame + 1 := by
  have h := claim2_cache_hit_load kCached cachedFile
    ⟨0xffff800000000200, 0xffff800000000040, 2⟩ (by decide) (by decide) (by decide)
  exact ⟨h.1, h.2.1, h.2.2.2.2.1⟩

/-- Projections of a successful `SetupPML4`. -/
theorem SetupPML4_ok (k : Kernel) (hfz : ¬ (k.freeFrames = 0)) :
    (SetupPML4 k).1 = (k.nextFrame, KError.kSuccess) ∧
    (SetupPML4 k).2.nextFrame = k.nextFrame + 1 ∧
    (SetupPML4 k).2.freeFrames = k.freeFrames - 1 ∧
    (SetupPML4 k).2.allocated = k.allocated ++ [k.nextFrame] ∧
    (SetupPML4 k).2.appLoads = k.appLoads ∧
    (SetupPML4 k).2.fileReads = k.fileReads ∧
    (SetupPML4 k).2.loadedSegs = k.loadedSegs := by
  simp [SetupPML4, NewPageMap, hfz]

/-- `SetupPML4` only succeeds when a frame was available. -/
theorem SetupPML4_needsFrame (k : Kernel)
    (hok : (SetupPML4 k).1.2 = KError.kSuccess) : ¬ (k.freeFrames = 0) := by
  intro h
  simp [SetupPML4, NewPageMap, h] at hok

/-- `CopyLoadSegments` under a sufficient frame budget: succeeds,
returns the running maximum of segment ends, and appends exactly the
`PT_LOAD` headers to the record of copied segments. -/
theorem CopyLoadSegmentsAux_budget (phdrs : List Phdr) :
    ∀ (k : Kernel) (last : Nat), pagesList phdrs ≤ k.freeFrames →
    (CopyLoadSegmentsAux k phdrs last).1 = (loadEndFold phdrs last, KError.kSuccess) ∧
    (CopyLoadSegmentsAux k phdrs last).2.loadedSegs
      = k.loadedSegs ++ phdrs.filter (fun p => p.p_type == PT_LOAD) ∧
    (CopyLoadSegmentsAux k phdrs last).2.freeFrames
      = k.freeFrames - pagesList phdrs ∧
    (CopyLoadSegmentsAux k phdrs last).2.appLoads = k.appLoads ∧
    (CopyLoadSegmentsAux k phdrs last).2.fileReads = k.fileReads := by
  induction phdrs with
  | nil =>
    intro k last h
    simp [CopyLoadSegmentsAux, pagesList, loadEndFold]
  | cons ph rest ih =>
    intro k last h
    by_cases hp : ph.p_type = PT_LOAD
    · simp only [pagesList, hp, if_pos] at h
      have hfree : ¬ (k.freeFrames < ((ph.p_memsz + 4095) % u64) / 4096) := by
        omega
      have hstep : CopyLoadSegmentsAux k (ph :: rest) last =
          CopyLoadSegmentsAux
            { k with
                nextFrame := k.nextFrame + ((ph.p_memsz + 4095) % u64) / 4096,
                freeFrames := k.freeFrames - ((ph.p_memsz + 4095) % u64) / 4096,
                allocated := k.allocated ++
                  (List.range (((ph.p_memsz + 4095) % u64) / 4096)).map
                    (k.nextFrame + ·),
                loadedSegs := k.loadedSegs ++ [ph] }
            rest (max last ((ph.p_vaddr + ph.p_memsz) % u64)) := by
        simp [CopyLoadSegmentsAux, hp, SetupPageMaps, hfree]
      obtain ⟨i1, i2, i3, i4, i5⟩ :=
        ih { k with
                nextFrame := k.nextFrame + ((ph.p_memsz + 4095) % u64) / 4096,
                freeFrames := k.freeFrames - ((ph.p_memsz + 4095) % u64) / 4096,
                allocated := k.allocated ++
                  (List.range (((ph.p_memsz + 4095) % u64) / 4096)).map
                    (k.nextFrame + ·),
                loadedSegs := k.loadedSegs ++ [ph] }
            (max last ((ph.p_vaddr + ph.p_memsz) % u64)) (by simp; omega)
      rw [hstep]
      refine ⟨?_, ?_, ?_, ?_, ?_⟩
      · rw [i1]
        simp [loadEndFold, hp]
      · rw [i2]
        simp [hp, List.append_assoc]
      · rw [i3]
        simp only [pagesList, hp, if_pos]
        omega
      · rw [i4]
      · rw [i5]
    · have hstep : CopyLoadSegmentsAux k (ph :: rest) last =
          CopyLoadSegmentsAux k rest last := by
        simp [CopyLoadSegmentsAux, hp]
      have h' : pagesList rest ≤ k.freeFrames := by
        simp only [pagesList, hp, if_neg] at h
        omega
      obtain ⟨i1, i2, i3, i4, i5⟩ := ih k last h'
      rw [hstep]
      have hpb : (ph.p_type == PT_LOAD) = false := by simpa using hp
      refine ⟨?_, ?_, ?_, ?_, ?_⟩
      · rw [i1]
        simp [loadEndFold, hp]
      · rw [i2]
        simp [hpb]
      · rw [i3]
        simp [pagesList, hp]
      · rw [i4]
      · rw [i5]

/-- If `CopyLoadSegments` succeeds, the returned `last_addr` is the
maximum of `p_vaddr + p_memsz` over the `PT_LOAD` headers. -/
theorem CopyLoadSegmentsAux_val (phdrs : List Phdr) :
    ∀ (k : Kernel) (last : Nat),
    (CopyLoadSegmentsAux k phdrs last).1.2 = KError.kSuccess →
    (CopyLoadSegmentsAux k phdrs last).1.1 = loadEndFold phdrs last := by
  induction phdrs with
  | nil =>
    intro k last _
    simp [CopyLoadSegmentsAux, loadEndFold]
  | cons ph rest ih =>
    intro k last hok
    by_cases hp : ph.p_type = PT_LOAD
    · by_cases hfree : k.freeFrames < ((ph.p_memsz + 4095) % u64) / 4096
      · exfalso
        simp [CopyLoadSegmentsAux, hp, SetupPageMaps, hfree] at hok
      · have hstep : CopyLoadSegmentsAux k (ph :: rest) last =
            CopyLoadSegmentsAux
              { k with
                  nextFrame := k.nextFrame + ((ph.p_memsz + 4095) % u64) / 4096,
                  freeFrames := k.freeFrames - ((ph.p_memsz + 4095) % u64) / 4096,
                  allocated := k.allocated ++
                    (List.range (((ph.p_memsz + 4095) % u64) / 4096)).map
                      (k.nextFrame + ·),
                  loadedSegs := k.loadedSegs ++ [ph] }
              rest (max last ((ph.p_vaddr + ph.p_memsz) % u64)) := by
          simp [CopyLoadSegmentsAux, hp, SetupPageMaps, hfree]
        rw [hstep] at hok ⊢
        rw [ih _ _ hok]
        simp [loadEndFold, hp]
    · have hstep : CopyLoadSegmentsAux k (ph :: rest) last =
          CopyLoadSegmentsAux k rest last := by
        simp [CopyLoadSegmentsAux, hp]
      rw [hstep] at hok ⊢
      rw [ih _ _ hok]
      simp [loadEndFold, hp]

/-- The first-load path of `LoadApp` under a sufficient frame budget:
valid magic, executable type and canonical first load address give a
successful load whose `AppLoadInfo` carries the segment-end maximum and
the ELF entry point, with exactly the `PT_LOAD` segments copied. -/
theorem LoadApp_missValid (k : Kernel) (fe : FileEntry)
    (hcache : lookupCache k.appLoads fe.id = none)
    (hmagic : fe.image.e_ident.take 4 = elfMagic)
    (htype : fe.image.e_type = ET_EXEC)
    (haddr : canonicalBase ≤ GetFirstLoadAddress fe.image)
    (hbudget : pagesList fe.image.phdrs + 2 ≤ k.freeFrames) :
    (LoadApp k fe).1.2 = KError.kSuccess ∧
    (LoadApp k fe).1.1.vaddr_end = loadEndFold fe.image.phdrs 0 ∧
    (LoadApp k fe).1.1.entry = fe.image.e_entry ∧
    (LoadApp k fe).2.loadedSegs
      = k.loadedSegs ++ fe.image.phdrs.filter (fun p => p.p_type == PT_LOAD) := by
  have hfz : ¬ (k.freeFrames = 0) := by omega
  have hnlt : ¬ (GetFirstLoadAddress fe.image < canonicalBase) := Nat.not_lt.2 haddr
  obtain ⟨s1, s2, s3, s4, s5, s6, s7⟩ := SetupPML4_ok k hfz
  rcases hs : SetupPML4 k with ⟨⟨tmp, e0⟩, k0⟩
  rw [hs] at s1 s2 s3 s4 s5 s6 s7
  have htmp : tmp = k.nextFrame := congrArg Prod.fst s1
  have he0 : e0 = KError.kSuccess := congrArg Prod.snd s1
  subst he0
  have hbud1 : pagesList fe.image.phdrs
      ≤ ({ k0 with fileReads := k0.fileReads + 1 } : Kernel).freeFrames := by
    have : ({ k0 with fileReads := k0.fileReads + 1 } : Kernel).freeFrames
        = k0.freeFrames := rfl
    rw [this, s3]
    omega
  obtain ⟨c1, c2, c3, c4, c5⟩ :=
    CopyLoadSegmentsAux_budget fe.image.phdrs
      { k0 with fileReads := k0.fileReads + 1 } 0 hbud1
  rcases hc : CopyLoadSegmentsAux { k0 with fileReads := k0.fileReads + 1 }
      fe.image.phdrs 0 with ⟨⟨la, e2⟩, k2⟩
  rw [hc] at c1 c2 c3 c4 c5
  have hla : la = loadEndFold fe.image.phdrs 0 := congrArg Prod.fst c1
  have he2 : e2 = KError.kSuccess := congrArg Prod.snd c1
  subst he2
  have hfz3 : ¬ (({ k2 with appLoads :=
      k2.appLoads ++ [(fe.id, ⟨la, fe.image.e_entry, tmp⟩)] } : Kernel).freeFrames
      = 0) := by
    have : ({ k2 with appLoads :=
        k2.appLoads ++ [(fe.id, ⟨la, fe.image.e_entry, tmp⟩)] } : Kernel).freeFrames
        = k2.freeFrames := rfl
    rw [this, c3]
    have : ({ k0 with fileReads := k0.fileReads + 1 } : Kernel).freeFrames
        = k0.freeFrames := rfl
    rw [this, s3]
    omega
  obtain ⟨t1, t2, t3, t4, t5, t6, t7⟩ := SetupPML4_ok
    { k2 with appLoads := k2.appLoads ++ [(fe.id, ⟨la, fe.image.e_entry, tmp⟩)] } hfz3
  rcases hs2 : SetupPML4
      { k2 with appLoads := k2.appLoads ++ [(fe.id, ⟨la, fe.image.e_entry, tmp⟩)] }
    with ⟨⟨tmp2, e3⟩, k4⟩
  rw [hs2] at t1 t2 t3 t4 t5 t6 t7
  have he3 : e3 = KError.kSuccess := congrArg Prod.snd t1
  subst he3
  replace s5 : k0.appLoads = k.appLoads := s5
  replace s7 : k0.loadedSegs = k.loadedSegs := s7
  replace c2 : k2.loadedSegs = k0.loadedSegs
      ++ List.filter (fun p => p.p_type == PT_LOAD) fe.image.phdrs := c2
  replace t7 : k4.loadedSegs = k2.loadedSegs := t7
  have hlook : lookupCache k0.appLoads fe.id = none := by rw [s5]; exact hcache
  refine ⟨?_, ?_, ?_, ?_⟩
  · simp [LoadApp, hs, hlook, hmagic, LoadELF, htype, hnlt,
      CopyLoadSegments, hc, hs2, CopyPageMaps]
  · simp [LoadApp, hs, hlook, hmagic, LoadELF, htype, hnlt,
      CopyLoadSegments, hc, hs2, CopyPageMaps]
    exact hla
  · simp [LoadApp, hs, hlook, hmagic, LoadELF, htype, hnlt,
      CopyLoadSegments, hc, hs2, CopyPageMaps]
  · simp [LoadApp, hs, hlook, hmagic, LoadELF, htype, hnlt,
      CopyLoadSegments, hc, hs2, CopyPageMaps]
    rw [t7, c2, s7]

/-- Claim C4: with a valid ELF magic, a non-`ET_EXEC` type fails with
`kInvalidFormat`; an executable whose first `PT_LOAD` address (0 when no
loadable segment exists) lies below `0xffff'8000'0000'0000` fails with
`kInvalidFormat`; in both failure cases no segment is copied and nothing
is cached, and only images passing both checks get their `PT_LOAD`
segments copied. -/
theorem claim4_elf_validation (k : Kernel) (fe : FileEntry)
    (hfree : 1 ≤ k.freeFrames)
    (hcache : lookupCache k.appLoads fe.id = none)
    (hmagic : fe.image.e_ident.take 4 = elfMagic) :
    (fe.image.e_type ≠ ET_EXEC →
      (LoadApp k fe).1 = (⟨0, 0, 0⟩, KError.kInvalidFormat) ∧
      (LoadApp k fe).2.loadedSegs = k.loadedSegs ∧
      (LoadApp k fe).2.appLoads = k.appLoads) ∧
    (fe.image.e_type = ET_EXEC →
      GetFirstLoadAddress fe.image < canonicalBase →
      (LoadApp k fe).1 = (⟨0, 0, 0⟩, KError.kInvalidFormat) ∧
      (LoadApp k fe).2.loadedSegs = k.loadedSegs ∧
      (LoadApp k fe).2.appLoads = k.appLoads) ∧
    (fe.image.e_type = ET_EXEC →
      canonicalBase ≤ GetFirstLoadAddress fe.image →
      pagesList fe.image.phdrs + 2 ≤ k.freeFrames →
      (LoadApp k fe).1.2 = KError.kSuccess ∧
      (LoadApp k fe).2.loadedSegs
        = k.loadedSegs ++ fe.image.phdrs.filter (fun p => p.p_type == PT_LOAD)) := by
  have hfz : ¬ (k.freeFrames = 0) := by omega
  refine ⟨?_, ?_, ?_⟩
  · intro ht
    refine ⟨?_, ?_, ?_⟩ <;>
      simp [LoadApp, SetupPML4, NewPageMap, LoadELF, hfz, hcache, hmagic, ht]
  · intro ht haddr
    refine ⟨?_, ?_, ?_⟩ <;>
      simp [LoadApp, SetupPML4, NewPageMap, LoadELF, hfz, hcache, hmagic, ht, haddr]
  · intro ht haddr hbudget
    obtain ⟨m1, m2, m3, m4⟩ := LoadApp_missValid k fe hcache hmagic ht haddr hbudget
    exact ⟨m1, m4⟩

/-- Witness for C4: the non-`ET_EXEC` file is rejected with
`kInvalidFormat` and nothing is copied or cached. -/
theorem claim4_elf_validation_witness :
    (LoadApp kInit badTypeFile).1 = (⟨0, 0, 0⟩, KError.kInvalidFormat) ∧
    (LoadApp kInit badTypeFile).2.loadedSegs = kInit.loadedSegs ∧
    (LoadApp kInit badTypeFile).2.appLoads = kInit.appLoads :=
  (claim4_elf_validation kInit badTypeFile (by decide) (by decide) (by decide)).1
    (by decide)

/-- When a first-time (cache-miss) `LoadApp` succeeds, the returned
`AppLoadInfo` carries the `PT_LOAD` end maximum and the ELF entry
point. -/
theorem LoadApp_miss_val (k : Kernel) (fe : FileEntry)
    (hcache : lookupCache k.appLoads fe.id = none)
    (hok : (LoadApp k fe).1.2 = KError.kSuccess) :
    (LoadApp k fe).1.1.vaddr_end = loadEndFold fe.image.phdrs 0 ∧
    (LoadApp k fe).1.1.entry = fe.image.e_entry := by
  rcases hs : SetupPML4 k with ⟨⟨tmp, e0⟩, k0⟩
  by_cases he0 : e0 = KError.kSuccess
  case neg =>
    exfalso
    have hr : (LoadApp k fe).1.2 = e0 := by simp [LoadApp, hs, he0]
    rw [hr] at hok
    exact he0 hok
  case pos =>
    subst he0
    have hfz : ¬ (k.freeFrames = 0) := SetupPML4_needsFrame k (by rw [hs])
    obtain ⟨s1, s2, s3, s4, s5, s6, s7⟩ := SetupPML4_ok k hfz
    rw [hs] at s5
    replace s5 : k0.appLoads = k.appLoads := s5
    have hlook : lookupCache k0.appLoads fe.id = none := by rw [s5]; exact hcache
    by_cases hmg : fe.image.e_ident.take 4 = elfMagic
    case neg =>
      exfalso
      have hr : (LoadApp k fe).1.2 = KError.kInvalidFile := by
        simp [LoadApp, hs, hlook, hmg]
      rw [hr] at hok
      exact absurd hok (by decide)
    case pos =>
      by_cases htype : fe.image.e_type = ET_EXEC
      case neg =>
        exfalso
        have hr : (LoadApp k fe).1.2 = KError.kInvalidFormat := by
          simp [LoadApp, hs, hlook, hmg, LoadELF, htype]
        rw [hr] at hok
        exact absurd hok (by decide)
      case pos =>
        by_cases haddr : GetFirstLoadAddress fe.image < canonicalBase
        case pos =>
          exfalso
          have hr : (LoadApp k fe).1.2 = KError.kInvalidFormat := by
            simp [LoadApp, hs, hlook, hmg, LoadELF, htype, haddr]
          rw [hr] at hok
          exact absurd hok (by decide)
        case neg =>
          rcases hc : CopyLoadSegmentsAux { k0 with fileReads := k0.fileReads + 1 }
              fe.image.phdrs 0 with ⟨⟨la, e2⟩, k2⟩
          by_cases he2 : e2 = KError.kSuccess
          case neg =>
            exfalso
            have hr : (LoadApp k fe).1.2 = e2 := by
              simp [LoadApp, hs, hlook, hmg, LoadELF, htype, haddr,
                CopyLoadSegments, hc, he2]
            rw [hr] at hok
            exact he2 hok
          case pos =>
            subst he2
            have hla : la = loadEndFold fe.image.phdrs 0 := by
              have hv := CopyLoadSegmentsAux_val fe.image.phdrs
                { k0 with fileReads := k0.fileReads + 1 } 0 (by rw [hc])
              rw [hc] at hv
              exact hv
            rcases hs2 : SetupPML4 { k2 with appLoads :=
                k2.appLoads ++ [(fe.id, ⟨la, fe.image.e_entry, tmp⟩)] }
              with ⟨⟨tmp2, e3⟩, k4⟩
            by_cases he3 : e3 = KError.kSuccess
            case neg =>
              exfalso
              have hr : (LoadApp k fe).1.2 = e3 := by
                simp [LoadApp, hs, hlook, hmg, LoadELF, htype, haddr,
                  CopyLoadSegments, hc, hs2, he3]
              rw [hr] at hok
              exact he3 hok
            case pos =>
              subst he3
              constructor
              · have hr : (LoadApp k fe).1.1.vaddr_end = la := by
                  simp [LoadApp, hs, hlook, hmg, LoadELF, htype, haddr,
                    CopyLoadSegments, hc, hs2, CopyPageMaps]
                rw [hr, hla]
              · simp [LoadApp, hs, hlook, hmg, LoadELF, htype, haddr,
                  CopyLoadSegments, hc, hs2, CopyPageMaps]

/-- `SetupPML4` never changes the load cache. -/
theorem SetupPML4_appLoads (k : Kernel) :
    (SetupPML4 k).2.appLoads = k.appLoads := by
  by_cases h : k.freeFrames = 0
  · simp [SetupPML4, NewPageMap, h]
  · simp [SetupPML4, NewPageMap, h]

/-- `SetupPageMaps` never changes the load cache. -/
theorem SetupPageMaps_appLoads (k : Kernel) (vaddr numPages : Nat) :
    (SetupPageMaps k vaddr numPages).2.appLoads = k.appLoads := by
  by_cases h : k.freeFrames < numPages
  · simp [SetupPageMaps, h]
  · simp [SetupPageMaps, h]

/-- `CopyLoadSegments` never changes the load cache. -/
theorem CopyLoadSegmentsAux_appLoads (phdrs : List Phdr) :
    ∀ (k : Kernel) (last : Nat),
    (CopyLoadSegmentsAux k phdrs last).2.appLoads = k.appLoads := by
  induction phdrs with
  | nil =>
    intro k last
    rfl
  | cons ph rest ih =>
    intro k last
    by_cases hp : ph.p_type = PT_LOAD
    · by_cases hfree : k.freeFrames < ((ph.p_memsz + 4095) % u64) / 4096
      · simp [CopyLoadSegmentsAux, hp, SetupPageMaps, hfree]
      · have hstep : CopyLoadSegmentsAux k (ph :: rest) last =
            CopyLoadSegmentsAux
              { k with
                  nextFrame := k.nextFrame + ((ph.p_memsz + 4095) % u64) / 4096,
                  freeFrames := k.freeFrames - ((ph.p_memsz + 4095) % u64) / 4096,
                  allocated := k.allocated ++
                    (List.range (((ph.p_memsz + 4095) % u64) / 4096)).map
                      (k.nextFrame + ·),
                  loadedSegs := k.loadedSegs ++ [ph] }
              rest (max last ((ph.p_vaddr + ph.p_memsz) % u64)) := by
          simp [CopyLoadSegmentsAux, hp, SetupPageMaps, hfree]
        rw [hstep, ih]
    · have hstep : CopyLoadSegmentsAux k (ph :: rest) last =
          CopyLoadSegmentsAux k rest last := by
        simp [CopyLoadSegmentsAux, hp]
      rw [hstep, ih]

/-- Appending a binding for a key that is absent makes the lookup of
that key find the appended value. -/
theorem lookupCache_append_of_none (c : List (Nat × AppLoadInfo)) (i : Nat)
    (e' : AppLoadInfo) (h : lookupCache c i = none) :
    lookupCache (c ++ [(i, e')]) i = some e' := by
  induction c with
  | nil => simp [lookupCache]
  | cons q c ih =>
    by_cases hq : (q.1 == i) = true
    · exfalso
      simp [lookupCache, List.find?_cons, hq] at h
    · have hqf : (q.1 == i) = false := by
        cases hb : (q.1 == i) with
        | true => exact absurd hb hq
        | false => rfl
      simp only [lookupCache, List.cons_append, List.find?_cons, hqf] at h ⊢
      exact ih h

/-- Every load that `LoadApp` reports successful returns the image's
`PT_LOAD` end maximum as `vaddr_end`: directly on a miss, and via the
cache-integrity hypothesis on a hit. -/
theorem LoadApp_val (k : Kernel) (fe : FileEntry)
    (hok : (LoadApp k fe).1.2 = KError.kSuccess)
    (hcache : ∀ e : AppLoadInfo, lookupCache k.appLoads fe.id = some e →
      e.vaddr_end = loadEndFold fe.image.phdrs 0) :
    (LoadApp k fe).1.1.vaddr_end = loadEndFold fe.image.phdrs 0 := by
  cases hc : lookupCache k.appLoads fe.id with
  | none => exact (LoadApp_miss_val k fe hc hok).1
  | some cached =>
    have hfz : ¬ (k.freeFrames = 0) := by
      intro h
      simp [LoadApp, SetupPML4, NewPageMap, h] at hok
    have h1 := (LoadApp_cacheHit k fe cached hfz hc).1
    rw [h1]
    exact hcache cached hc

/-- `LoadApp` establishes and preserves cache integrity for the loaded
file: if every cached entry for `fe.id` carries the image's `PT_LOAD`
end maximum before the call, the same holds afterwards — the hit and
error paths leave the cache unchanged, and the successful miss path
inserts exactly `CopyLoadSegments`' end maximum (terminal.cpp lines
211-217).  Hence the cache-integrity hypothesis of C8 holds in every
state reachable through `LoadApp`, starting from the empty boot cache. -/
theorem LoadApp_cache_integrity (k : Kernel) (fe : FileEntry)
    (hcache : ∀ e : AppLoadInfo, lookupCache k.appLoads fe.id = some e →
      e.vaddr_end = loadEndFold fe.image.phdrs 0) :
    ∀ e : AppLoadInfo, lookupCache (LoadApp k fe).2.appLoads fe.id = some e →
      e.vaddr_end = loadEndFold fe.image.phdrs 0 := by
  by_cases hfz : k.freeFrames = 0
  · have hres : (LoadApp k fe).2.appLoads = k.appLoads := by
      simp [LoadApp, SetupPML4, NewPageMap, hfz]
    rw [hres]
    exact hcache
  · rcases hs : SetupPML4 k with ⟨⟨tmp, e0⟩, k0⟩
    have hs5 : k0.appLoads = k.appLoads := by
      have h := SetupPML4_appLoads k
      rw [hs] at h
      exact h
    have he0 : e0 = KError.kSuccess := by
      have h := (SetupPML4_ok k hfz).1
      rw [hs] at h
      exact congrArg Prod.snd h
    subst he0
    cases hc : lookupCache k.appLoads fe.id with
    | some cached =>
      have hlook : lookupCache k0.appLoads fe.id = some cached := by
        rw [hs5]; exact hc
      have hres : (LoadApp k fe).2.appLoads = k.appLoads := by
        simp [LoadApp, hs, hlook, hc, CopyPageMaps, hs5]
      rw [hres]
      exact hcache
    | none =>
      have hlook : lookupCache k0.appLoads fe.id = none := by
        rw [hs5]; exact hc
      by_cases hmg : fe.image.e_ident.take 4 = elfMagic
      case neg =>
        have hres : (LoadApp k fe).2.appLoads = k.appLoads := by
          simp [LoadApp, hs, hlook, hc, hmg, hs5]
        rw [hres]
        exact hcache
      case pos =>
        by_cases htype : fe.image.e_type = ET_EXEC
        case neg =>
          have hres : (LoadApp k fe).2.appLoads = k.appLoads := by
            simp [LoadApp, hs, hlook, hc, hmg, LoadELF, htype, hs5]
          rw [hres]
          exact hcache
        case pos =>
          by_cases haddr : GetFirstLoadAddress fe.image < canonicalBase
          case pos =>
            have hres : (LoadApp k fe).2.appLoads = k.appLoads := by
              simp [LoadApp, hs, hlook, hc, hmg, LoadELF, htype, haddr, hs5]
            rw [hres]
            exact hcache
          case neg =>
            rcases hcopy : CopyLoadSegmentsAux
                { k0 with fileReads := k0.fileReads + 1 } fe.image.phdrs 0
              with ⟨⟨la, e2⟩, k2⟩
            have hk2 : k2.appLoads = k.appLoads := by
              have h := CopyLoadSegmentsAux_appLoads fe.image.phdrs
                { k0 with fileReads := k0.fileReads + 1 } 0
              rw [hcopy] at h
              replace h : k2.appLoads = k0.appLoads := h
              rw [h, hs5]
            by_cases he2 : e2 = KError.kSuccess
            case neg =>
              have hres : (LoadApp k fe).2.appLoads = k2.appLoads := by
                simp [LoadApp, hs, hlook, hmg, LoadELF, htype, haddr,
                  CopyLoadSegments, hcopy, he2]
              rw [hres, hk2]
              exact hcache
            case pos =>
              subst he2
              have hla : la = loadEndFold fe.image.phdrs 0 := by
                have hv := CopyLoadSegmentsAux_val fe.image.phdrs
                  { k0 with fileReads := k0.fileReads + 1 } 0 (by rw [hcopy])
                rw [hcopy] at hv
                exact hv
              have hfind : ∀ e : AppLoadInfo,
                  lookupCache
                    (k2.appLoads ++ [(fe.id, ⟨la, fe.image.e_entry, tmp⟩)]) fe.id
                    = some e →
                  e.vaddr_end = loadEndFold fe.image.phdrs 0 := by
                intro e he
                have hnone : lookupCache k2.appLoads fe.id = none := by
                  rw [hk2]; exact hc
                rw [lookupCache_append_of_none k2.appLoads fe.id _ hnone] at he
                have he' := Option.some.inj he
                rw [← he']
                exact hla
              rcases hs2 : SetupPML4 { k2 with appLoads :=
                  k2.appLoads ++ [(fe.id, ⟨la, fe.image.e_entry, tmp⟩)] }
                with ⟨⟨tmp2, e3⟩, k4⟩
              have hk4 : k4.appLoads
                  = k2.appLoads ++ [(fe.id, ⟨la, fe.image.e_entry, tmp⟩)] := by
                have h := SetupPML4_appLoads { k2 with appLoads :=
                  k2.appLoads ++ [(fe.id, ⟨la, fe.image.e_entry, tmp⟩)] }
                rw [hs2] at h
                exact h
              by_cases he3 : e3 = KError.kSuccess
              case neg =>
                have hres : (LoadApp k fe).2.appLoads = k4.appLoads := by
                  simp [LoadApp, hs, hlook, hmg, LoadELF, htype, haddr,
                    CopyLoadSegments, hcopy, hs2, he3]
                rw [hres, hk4]
                exact hfind
              case pos =>
                subst he3
                have hres : (LoadApp k fe).2.appLoads = k4.appLoads := by
                  simp [LoadApp, hs, hlook, hmg, LoadELF, htype, haddr,
                    CopyLoadSegments, hcopy, hs2, CopyPageMaps]
                rw [hres, hk4]
                exact hfind

/-- `ExecuteFile` changes the load cache exactly as its `LoadApp` call
does: the argument-frame, argv, stack and descriptor steps never touch
it. -/
theorem ExecuteFile_appLoads (k : Kernel) (fe : FileEntry) (cmd : List Nat)
    (fa : Option (List Nat)) :
    (ExecuteFile k fe cmd fa).2.appLoads = (LoadApp k fe).2.appLoads := by
  rcases hl : LoadApp k fe with ⟨⟨al, e0⟩, k0⟩
  by_cases he0 : e0 = KError.kSuccess
  case neg =>
    have hr : ExecuteFile k fe cmd fa = (Except.error e0, k0) :=
      ExecuteFile_loadErr k fe cmd fa al e0 k0 hl he0
    rw [hr]
  case pos =>
    subst he0
    rcases hsp1 : SetupPageMaps k0 argsFrameAddr 1 with ⟨e1, k1⟩
    have h1 : k1.appLoads = k0.appLoads := by
      have h := SetupPageMaps_appLoads k0 argsFrameAddr 1
      rw [hsp1] at h
      exact h
    by_cases he1 : e1 = KError.kSuccess
    case neg =>
      have hr : ExecuteFile k fe cmd fa = (Except.error e1, k1) := by
        simp [ExecuteFile, hl, hsp1, he1]
      rw [hr]
      exact h1
    case pos =>
      subst he1
      rcases hma : MakeArgVector cmd fa 32 (4096 - 8 * 32) with ⟨st, e2, mb⟩
      by_cases he2 : e2 = KError.kSuccess
      case neg =>
        have hr : ExecuteFile k fe cmd fa = (Except.error e2, k1) := by
          simp [ExecuteFile, hl, hsp1, hma, he2]
        rw [hr]
        exact h1
      case pos =>
        subst he2
        rcases hsp2 : SetupPageMaps k1 (argsFrameAddr - appStackSize) 8
          with ⟨e3, k2⟩
        have h2 : k2.appLoads = k0.appLoads := by
          have h := SetupPageMaps_appLoads k1 (argsFrameAddr - appStackSize) 8
          rw [hsp2] at h
          rw [h, h1]
        by_cases he3 : e3 = KError.kSuccess
        case neg =>
          have hr : ExecuteFile k fe cmd fa = (Except.error e3, k2) := by
            simp [ExecuteFile, hl, hsp1, hma, hsp2, he3]
          rw [hr]
          exact h2
        case pos =>
          subst he3
          have hr : (ExecuteFile k fe cmd fa).2.appLoads = k2.appLoads := by
            simp [ExecuteFile, hl, hsp1, hma, hsp2]
          rw [hr]
          exact h2

/-- Cache integrity is preserved across a whole `ExecuteFile` call. -/
theorem ExecuteFile_cache_integrity (k : Kernel) (fe : FileEntry)
    (cmd : List Nat) (fa : Option (List Nat))
    (hcache : ∀ e : AppLoadInfo, lookupCache k.appLoads fe.id = some e →
      e.vaddr_end = loadEndFold fe.image.phdrs 0) :
    ∀ e : AppLoadInfo,
      lookupCache (ExecuteFile k fe cmd fa).2.appLoads fe.id = some e →
      e.vaddr_end = loadEndFold fe.image.phdrs 0 := by
  intro e he
  rw [ExecuteFile_appLoads] at he
  exact LoadApp_cache_integrity k fe hcache e he

/-- Claim C8: after every successful exec setup — first launch or
cache-hit relaunch alike — and before control transfer, the task's
demand-paging window is empty and positioned at the 4-KiB-aligned
address at or immediately past the end of the loaded image: both window
ends equal `(load_end + 4095) & ~0xfff` where `load_end` is the running
maximum of `p_vaddr + p_memsz` over the image's `PT_LOAD` segments.  On
a hit the window is set from the cached `vaddr_end`, so the statement
assumes cache integrity for the launched file (any cached entry carries
that same maximum) — an invariant of the empty boot cache that
`LoadApp_cache_integrity` and `ExecuteFile_cache_integrity` show is
maintained by every load. -/
theorem claim8_demand_paging_window (k : Kernel) (fe : FileEntry)
    (cmd : List Nat) (fa : Option (List Nat))
    (hcache : ∀ e : AppLoadInfo, lookupCache k.appLoads fe.id = some e →
      e.vaddr_end = loadEndFold fe.image.phdrs 0)
    (hok : exceptOk (ExecuteFile k fe cmd fa).1 = true) :
    (ExecuteFile k fe cmd fa).2.dpBegin = (ExecuteFile k fe cmd fa).2.dpEnd ∧
    (ExecuteFile k fe cmd fa).2.dpBegin
      = ((loadEndFold fe.image.phdrs 0 + 4095) % u64) &&& 0xfffffffffffff000 := by
  rcases hl : LoadApp k fe with ⟨⟨al, e0⟩, k0⟩
  by_cases he0 : e0 = KError.kSuccess
  case neg =>
    exfalso
    have hr : ExecuteFile k fe cmd fa = (Except.error e0, k0) :=
      ExecuteFile_loadErr k fe cmd fa al e0 k0 hl he0
    rw [hr] at hok
    simp [exceptOk] at hok
  case pos =>
    subst he0
    have hv0 := LoadApp_val k fe (by rw [hl]) hcache
    rw [hl] at hv0
    have hv : al.vaddr_end = loadEndFold fe.image.phdrs 0 := hv0
    rcases hsp1 : SetupPageMaps k0 argsFrameAddr 1 with ⟨e1, k1⟩
    by_cases he1 : e1 = KError.kSuccess
    case neg =>
      exfalso
      have hr : ExecuteFile k fe cmd fa = (Except.error e1, k1) := by
        simp [ExecuteFile, hl, hsp1, he1]
      rw [hr] at hok
      simp [exceptOk] at hok
    case pos =>
      subst he1
      rcases hma : MakeArgVector cmd fa 32 (4096 - 8 * 32) with ⟨st, e2, mb⟩
      by_cases he2 : e2 = KError.kSuccess
      case neg =>
        exfalso
        have hr : ExecuteFile k fe cmd fa = (Except.error e2, k1) := by
          simp [ExecuteFile, hl, hsp1, hma, he2]
        rw [hr] at hok
        simp [exceptOk] at hok
      case pos =>
        subst he2
        rcases hsp2 : SetupPageMaps k1 (argsFrameAddr - appStackSize) 8
          with ⟨e3, k2⟩
        by_cases he3 : e3 = KError.kSuccess
        case neg =>
          exfalso
          have hr : ExecuteFile k fe cmd fa = (Except.error e3, k2) := by
            simp [ExecuteFile, hl, hsp1, hma, hsp2, he3]
          rw [hr] at hok
          simp [exceptOk] at hok
        case pos =>
          subst he3
          constructor
          · simp [ExecuteFile, hl, hsp1, hma, hsp2]
          · have hr : (ExecuteFile k fe cmd fa).2.dpBegin
                = ((al.vaddr_end + 4095) % u64) &&& 0xfffffffffffff000 := by
              simp [ExecuteFile, hl, hsp1, hma, hsp2]
            rw [hr, hv]

/-- Witness for C8 at a cache-hit relaunch: the concrete exec setup from
the consistently cached state leaves the window empty at
`0xffff'8000'0000'1000`, the page-aligned address past the image end. -/
theorem claim8_demand_paging_window_witness :
    (ExecuteFile kCachedGood goodFile [97] none).2.dpBegin
      = (ExecuteFile kCachedGood goodFile [97] none).2.dpEnd ∧
    (ExecuteFile kCachedGood goodFile [97] none).2.dpBegin
      = ((loadEndFold goodFile.image.phdrs 0 + 4095) % u64) &&& 0xfffffffffffff000 :=
  claim8_demand_paging_window kCachedGood goodFile [97] none
    (by
      intro e he
      have h0 : lookupCache kCachedGood.appLoads goodFile.id
          = some ⟨0xffff800000000180, 0xffff800000000040, 2⟩ := by decide
      rw [h0] at he
      rw [← Option.some.inj he]
      decide)
    (by decide)

/-- `push_to_argv` either fails with `kFull` leaving the state
untouched, or stores the string and bumps the counters. -/
theorem pushToArgv_cases (alen blen : Nat) (st : AVState) (s : List Nat) :
    pushToArgv alen blen st s = (st, KError.kFull) ∨
    pushToArgv alen blen st s =
      ({ argc := st.argc + 1, args := st.args ++ [s],
         argbufIndex := st.argbufIndex + s.length + 1 }, KError.kSuccess) := by
  unfold pushToArgv
  split
  · exact Or.inl rfl
  · exact Or.inr rfl

/-- The argument loop keeps `argc` equal to the number of stored
entries. -/
theorem argLoop_argc (alen blen : Nat) : ∀ (fuel : Nat) (buf : List Nat)
    (st : AVState), st.argc = st.args.length →
    (argLoop alen blen fuel st buf).1.argc
      = (argLoop alen blen fuel st buf).1.args.length := by
  intro fuel
  induction fuel with
  | zero => intro buf st h; simpa [argLoop] using h
  | succ fuel ih =>
    intro buf st h
    simp only [argLoop]
    cases hr1 : buf.dropWhile isspaceB with
    | nil => simpa using h
    | cons c r1tail =>
      by_cases hc : c = 0
      · simpa [hc] using h
      · simp only [if_neg hc]
        rcases pushToArgv_cases alen blen st ((c :: r1tail).takeWhile isTokChar)
          with hp | hp
        · cases hr2 : (c :: r1tail).dropWhile isTokChar with
          | nil => simpa [hp] using h
          | cons d tail =>
            by_cases hd : d = 0
            · simpa [hd, hp] using h
            · simpa [hd, hp] using h
        · cases hr2 : (c :: r1tail).dropWhile isTokChar with
          | nil => simpa [hp] using h
          | cons d tail =>
            by_cases hd : d = 0
            · simpa [hd, hp] using h
            · simp only [if_neg hd, hp]
              have := ih tail
                { argc := st.argc + 1,
                  args := st.args ++ [(c :: r1tail).takeWhile isTokChar],
                  argbufIndex := st.argbufIndex
                    + ((c :: r1tail).takeWhile isTokChar).length + 1 }
                (by simp [h])
              simpa using this

/-- The argument loop with entry limit 32: once enough tokens are
present to attempt a 33rd entry and the packed buffer cannot run out,
the loop stops with `kFull`, the 32 accumulated entries intact. -/
theorem argLoop_fill (argbuf_len : Nat) : ∀ (fuel : Nat) (buf : List Nat)
    (st : AVState),
    buf.length ≤ fuel →
    st.argc = st.args.length →
    st.argc ≤ 32 →
    33 - st.argc ≤ (tokensList fuel buf).length →
    st.argbufIndex + buf.length + (33 - st.argc) ≤ argbuf_len →
    (argLoop 32 argbuf_len fuel st buf).2.1 = KError.kFull ∧
    (argLoop 32 argbuf_len fuel st buf).1.argc = 32 ∧
    (argLoop 32 argbuf_len fuel st buf).1.args
      = st.args ++ (tokensList fuel buf).take (32 - st.argc) := by
  intro fuel
  induction fuel with
  | zero =>
    intro buf st hfuel hcount h32 htok hbound
    exfalso
    simp [tokensList] at htok
    omega
  | succ fuel ih =>
    intro buf st hfuel hcount h32 htok hbound
    cases hr1 : buf.dropWhile isspaceB with
    | nil =>
      exfalso
      simp [tokensList, hr1] at htok
      omega
    | cons c r1tail =>
      by_cases hc : c = 0
      · exfalso
        simp [tokensList, hr1, hc] at htok
        omega
      · cases hr2 : (c :: r1tail).dropWhile isTokChar with
        | nil =>
          have htok1 : (tokensList (fuel + 1) buf).length = 1 := by
            simp [tokensList, hr1, hc, hr2]
          have hargc : st.argc = 32 := by omega
          have hpush : pushToArgv 32 argbuf_len st
              ((c :: r1tail).takeWhile isTokChar) = (st, KError.kFull) := by
            unfold pushToArgv
            rw [if_pos (Or.inl (by omega))]
          refine ⟨?_, ?_, ?_⟩ <;>
            simp [argLoop, hr1, hc, hr2, hpush, hargc]
        | cons d tail =>
          by_cases hd : d = 0
          · have htok1 : (tokensList (fuel + 1) buf).length = 1 := by
              simp [tokensList, hr1, hc, hr2, hd]
            have hargc : st.argc = 32 := by omega
            have hpush : pushToArgv 32 argbuf_len st
                ((c :: r1tail).takeWhile isTokChar) = (st, KError.kFull) := by
              unfold pushToArgv
              rw [if_pos (Or.inl (by omega))]
            refine ⟨?_, ?_, ?_⟩ <;>
              simp [argLoop, hr1, hc, hr2, hd, hpush, hargc]
          · have htokeq : tokensList (fuel + 1) buf
                = (c :: r1tail).takeWhile isTokChar :: tokensList fuel tail := by
              simp [tokensList, hr1, hc, hr2, hd]
            by_cases hargc : st.argc = 32
            · have hpush : pushToArgv 32 argbuf_len st
                  ((c :: r1tail).takeWhile isTokChar) = (st, KError.kFull) := by
                unfold pushToArgv
                rw [if_pos (Or.inl (by omega))]
              refine ⟨?_, ?_, ?_⟩ <;>
                simp [argLoop, hr1, hc, hr2, hd, hpush, hargc]
            · have hbl : buf.length = (buf.takeWhile isspaceB).length
                  + (c :: r1tail).length := by
                conv_lhs => rw [← List.takeWhile_append_dropWhile (p := isspaceB)
                  (l := buf)]
                rw [hr1]
                simp
              have hr1l : (c :: r1tail).length
                  = ((c :: r1tail).takeWhile isTokChar).length
                    + (d :: tail).length := by
                conv_lhs => rw [← List.takeWhile_append_dropWhile (p := isTokChar)
                  (l := c :: r1tail)]
                rw [hr2]
                simp
              have hnf : ¬ (32 ≤ st.argc ∨ argbuf_len ≤ st.argbufIndex) := by
                push_neg
                constructor
                · omega
                · simp only [List.length_cons] at hbl hr1l
                  omega
              have hpush : pushToArgv 32 argbuf_len st
                  ((c :: r1tail).takeWhile isTokChar)
                  = ({ argc := st.argc + 1,
                       args := st.args ++ [(c :: r1tail).takeWhile isTokChar],
                       argbufIndex := st.argbufIndex
                         + ((c :: r1tail).takeWhile isTokChar).length + 1 },
                     KError.kSuccess) := by
                unfold pushToArgv
                rw [if_neg hnf]
              have ihr := ih tail
                { argc := st.argc + 1,
                  args := st.args ++ [(c :: r1tail).takeWhile isTokChar],
                  argbufIndex := st.argbufIndex
                    + ((c :: r1tail).takeWhile isTokChar).length + 1 }
                (by
                  simp only [List.length_cons] at hbl hr1l
                  omega)
                (by simp [hcount])
                (by
                  show st.argc + 1 ≤ 32
                  omega)
                (by
                  show 33 - (st.argc + 1) ≤ (tokensList fuel tail).length
                  rw [htokeq] at htok
                  simp only [List.length_cons] at htok
                  omega)
                (by
                  show st.argbufIndex
                      + ((c :: r1tail).takeWhile isTokChar).length + 1
                      + tail.length + (33 - (st.argc + 1)) ≤ argbuf_len
                  simp only [List.length_cons] at hbl hr1l
                  omega)
              obtain ⟨i1, i2, i3⟩ := ihr
              have htake : 32 - st.argc = (32 - (st.argc + 1)) + 1 := by omega
              refine ⟨?_, ?_, ?_⟩
              · simp only [argLoop, hr1, hc, hr2]
                simp only [if_neg hc, if_neg hd, hpush]
                simpa using i1
              · simp only [argLoop, hr1, hc, hr2]
                simp only [if_neg hc, if_neg hd, hpush]
                simpa using i2
              · simp only [argLoop, hr1, hc, hr2]
                simp only [if_neg hc, if_neg hd, hpush]
                rw [htokeq, htake]
                simp only [List.take_succ_cons]
                have i3' := i3
                simp only [] at i3'
                simpa [List.append_assoc] using i3'

/-- Claim C5: marshaling with `argv_len = 32` and at least 32 tokens in
the argument string (and a packed buffer that cannot run out first)
attempts a 33rd entry, which fails with `kFull`: the count returned
alongside the error is 32 and the 32 previously stored entries — the
command and the first 31 tokens — are intact.  Moreover every failing
`push_to_argv` leaves the accumulated state untouched, and the count
returned always equals the number of stored entries, also when the
packed string buffer is exhausted first. -/
theorem claim5_argv_full (command buf : List Nat) (argbuf_len : Nat)
    (fa : Option (List Nat)) (alen blen : Nat) (st : AVState) (s : List Nat)
    (htok : 32 ≤ (tokens buf).length)
    (hbuf : command.length + buf.length + 33 ≤ argbuf_len) :
    ((MakeArgVector command (some buf) 32 argbuf_len).2.1 = KError.kFull ∧
     (MakeArgVector command (some buf) 32 argbuf_len).1.argc = 32 ∧
     (MakeArgVector command (some buf) 32 argbuf_len).1.args
       = command :: (tokens buf).take 31) ∧
    ((pushToArgv alen blen st s).2 = KError.kFull →
      (pushToArgv alen blen st s).1 = st) ∧
    (MakeArgVector command fa alen blen).1.argc
      = (MakeArgVector command fa alen blen).1.args.length := by
  refine ⟨?_, ?_, ?_⟩
  · have hb1 : ¬ ((32 : Nat) ≤ 0) := by omega
    have hb2 : ¬ (argbuf_len ≤ 0) := by omega
    have hpush : pushToArgv 32 argbuf_len ⟨0, [], 0⟩ command
        = (⟨1, [command], command.length + 1⟩, KError.kSuccess) := by
      simp [pushToArgv, hb1, hb2]
    obtain ⟨f1, f2, f3⟩ := argLoop_fill argbuf_len buf.length buf
      ⟨1, [command], command.length + 1⟩ (le_refl _) rfl
      (by show (1 : Nat) ≤ 32; omega)
      (by
        show 33 - 1 ≤ (tokensList buf.length buf).length
        simpa [tokens] using htok)
      (by
        show command.length + 1 + buf.length + (33 - 1) ≤ argbuf_len
        omega)
    refine ⟨?_, ?_, ?_⟩ <;>
      simp [MakeArgVector, hpush, f1, f2, f3, tokens]
  · intro h
    rcases pushToArgv_cases alen blen st s with hp | hp
    · rw [hp]
    · rw [hp] at h
      simp at h
  · rcases pushToArgv_cases alen blen ⟨0, [], 0⟩ command with hp | hp
    · simp [MakeArgVector, hp]
    · cases fa with
      | none => simp [MakeArgVector, hp]
      | some buf2 =>
        have := argLoop_argc alen blen buf2.length buf2
          { argc := 1, args := [] ++ [command],
            argbufIndex := 0 + command.length + 1 } (by simp)
        simp [MakeArgVector, hp]
        simpa using this

/-- Witness for C5: the command plus 32 tokens overflow the 32-entry
table; the error is `kFull`, the count 32, and the stored entries are
the command and the first 31 tokens. -/
theorem claim5_argv_full_witness :
    (MakeArgVector [99, 97, 116] (some c5buf) 32 3840).2.1 = KError.kFull ∧
    (MakeArgVector [99, 97, 116] (some c5buf) 32 3840).1.argc = 32 ∧
    (MakeArgVector [99, 97, 116] (some c5buf) 32 3840).1.args
      = [99, 97, 116] :: (tokens c5buf).take 31 :=
  (claim5_argv_full [99, 97, 116] c5buf 3840 none 32 3840 ⟨0, [], 0⟩ []
    (by decide) (by decide)).1

/-- `takeWhile` over a satisfying prefix followed by a failing element. -/
theorem takeWhile_all_append (p : Nat → Bool) (l1 : List Nat) (x : Nat)
    (l2 : List Nat) (h1 : ∀ c ∈ l1, p c = true) (hx : p x = false) :
    (l1 ++ x :: l2).takeWhile p = l1 := by
  induction l1 with
  | nil => simp [List.takeWhile_cons, hx]
  | cons a l ih =>
    have ha : p a = true := h1 a (List.mem_cons_self a l)
    simp [List.takeWhile_cons, ha,
      ih (fun c hc => h1 c (List.mem_cons_of_mem a hc))]

/-- `dropWhile` over a satisfying prefix followed by a failing element. -/
theorem dropWhile_all_append (p : Nat → Bool) (l1 : List Nat) (x : Nat)
    (l2 : List Nat) (h1 : ∀ c ∈ l1, p c = true) (hx : p x = false) :
    (l1 ++ x :: l2).dropWhile p = x :: l2 := by
  induction l1 with
  | nil => simp [List.dropWhile_cons, hx]
  | cons a l ih =>
    have ha : p a = true := h1 a (List.mem_cons_self a l)
    simp [List.dropWhile_cons, ha,
      ih (fun c hc => h1 c (List.mem_cons_of_mem a hc))]

/-- The argument loop only ever appends to the stored entries. -/
theorem argLoop_args_mono (alen blen : Nat) : ∀ (fuel : Nat) (buf : List Nat)
    (st : AVState), ∃ l, (argLoop alen blen fuel st buf).1.args = st.args ++ l := by
  intro fuel
  induction fuel with
  | zero => intro buf st; exact ⟨[], by simp [argLoop]⟩
  | succ fuel ih =>
    intro buf st
    simp only [argLoop]
    cases hr1 : buf.dropWhile isspaceB with
    | nil => exact ⟨[], by simp⟩
    | cons c r1tail =>
      by_cases hc : c = 0
      · exact ⟨[], by simp [hc]⟩
      · simp only [if_neg hc]
        rcases pushToArgv_cases alen blen st ((c :: r1tail).takeWhile isTokChar)
          with hp | hp
        · cases hr2 : (c :: r1tail).dropWhile isTokChar with
          | nil => exact ⟨[], by simp [hp]⟩
          | cons d tail =>
            by_cases hd : d = 0
            · exact ⟨[], by simp [hd, hp]⟩
            · exact ⟨[], by simp [hd, hp]⟩
        · cases hr2 : (c :: r1tail).dropWhile isTokChar with
          | nil => exact ⟨[(c :: r1tail).takeWhile isTokChar], by simp [hp]⟩
          | cons d tail =>
            by_cases hd : d = 0
            · exact ⟨[(c :: r1tail).takeWhile isTokChar], by simp [hd, hp]⟩
            · obtain ⟨l, hl⟩ := ih tail
                { argc := st.argc + 1,
                  args := st.args ++ [(c :: r1tail).takeWhile isTokChar],
                  argbufIndex := st.argbufIndex
                    + ((c :: r1tail).takeWhile isTokChar).length + 1 }
              refine ⟨(c :: r1tail).takeWhile isTokChar :: l, ?_⟩
              simp only [if_neg hd, hp]
              simpa [List.append_assoc] using hl

/-- Claim C9: `MakeArgVector` mutates the `first_arg` buffer in place —
after the first token of a buffer of the shape
`spaces ++ token ++ whitespace :: rest` is consumed, the whitespace byte
after it has been overwritten with NUL, so the buffer no longer equals
its pre-call contents; the returned argv entries are the copies in the
separate packed buffer, headed by the command name. -/
theorem claim9_first_arg_mutation (command sp tok : List Nat) (d : Nat)
    (rest : List Nat) (argv_len argbuf_len : Nat)
    (hsp : ∀ c ∈ sp, isspaceB c = true)
    (htok : ∀ c ∈ tok, isTokChar c = true)
    (htne : tok ≠ [])
    (hd : isspaceB d = true)
    (hargv : 1 ≤ argv_len) (hargbuf : 1 ≤ argbuf_len) :
    ∃ mt,
      (MakeArgVector command (some (sp ++ tok ++ d :: rest))
          argv_len argbuf_len).2.2 = some (sp ++ tok ++ 0 :: mt) ∧
      sp ++ tok ++ 0 :: mt ≠ sp ++ tok ++ d :: rest ∧
      ∃ restArgs,
        (MakeArgVector command (some (sp ++ tok ++ d :: rest))
            argv_len argbuf_len).1.args = command :: restArgs := by
  have hd0 : d ≠ 0 := by
    intro h
    rw [h] at hd
    exact absurd hd (by decide)
  cases tok with
  | nil => exact absurd rfl htne
  | cons t tok' =>
    have ht : isTokChar t = true := htok t (List.mem_cons_self t tok')
    have htsp : isspaceB t = false := by
      simp only [isTokChar, Bool.and_eq_true, Bool.not_eq_true'] at ht
      exact ht.2
    have hdt : isTokChar d = false := by
      simp [isTokChar, hd]
    have hbuf : sp ++ (t :: tok') ++ d :: rest
        = sp ++ t :: (tok' ++ d :: rest) := by simp
    have hr1 : (sp ++ (t :: tok') ++ d :: rest).dropWhile isspaceB
        = t :: (tok' ++ d :: rest) := by
      rw [hbuf]
      exact dropWhile_all_append isspaceB sp t (tok' ++ d :: rest) hsp htsp
    have hsp1 : (sp ++ (t :: tok') ++ d :: rest).takeWhile isspaceB = sp := by
      rw [hbuf]
      exact takeWhile_all_append isspaceB sp t (tok' ++ d :: rest) hsp htsp
    have htk : (t :: (tok' ++ d :: rest)).takeWhile isTokChar = t :: tok' := by
      have : t :: (tok' ++ d :: rest) = (t :: tok') ++ d :: rest := by simp
      rw [this]
      exact takeWhile_all_append isTokChar (t :: tok') d rest htok hdt
    have hdr : (t :: (tok' ++ d :: rest)).dropWhile isTokChar = d :: rest := by
      have : t :: (tok' ++ d :: rest) = (t :: tok') ++ d :: rest := by simp
      rw [this]
      exact dropWhile_all_append isTokChar (t :: tok') d rest htok hdt
    have ht0 : ¬ (t = 0) := by
      simp only [isTokChar, Bool.and_eq_true, bne_iff_ne, ne_eq] at ht
      exact ht.1
    have hb1 : ¬ (argv_len ≤ 0) := by omega
    have hb2 : ¬ (argbuf_len ≤ 0) := by omega
    have hpushc : pushToArgv argv_len argbuf_len ⟨0, [], 0⟩ command
        = (⟨1, [command], command.length + 1⟩, KError.kSuccess) := by
      simp [pushToArgv, hb1, hb2]
    have hn : (sp ++ (t :: tok') ++ d :: rest).length
        = (sp.length + tok'.length + rest.length + 1) + 1 := by
      simp
      omega
    have hneq : ∀ mt : List Nat,
        sp ++ (t :: tok') ++ 0 :: mt ≠ sp ++ (t :: tok') ++ d :: rest := by
      intro mt h
      have h2 := List.append_cancel_left h
      have h4 : (0 : Nat) = d := by
        injection h2 with ha hb
      exact hd0 h4.symm
    have hfalse : (KError.kFull = KError.kSuccess) = False := by simp
    have htrue : (KError.kSuccess = KError.kSuccess) = True := by simp
    have hred : MakeArgVector command (some (sp ++ (t :: tok') ++ d :: rest))
        argv_len argbuf_len
        = (let r := argLoop argv_len argbuf_len
            ((sp.length + tok'.length + rest.length + 1) + 1)
            ⟨1, [command], command.length + 1⟩ (sp ++ (t :: tok') ++ d :: rest)
           (r.1, r.2.1, some r.2.2)) := by
      simp only [MakeArgVector, hpushc, htrue, if_true, hn]
    rcases pushToArgv_cases argv_len argbuf_len
        ⟨1, [command], command.length + 1⟩ (t :: tok') with hp | hp
    · have hloop : argLoop argv_len argbuf_len
          ((sp.length + tok'.length + rest.length + 1) + 1)
          ⟨1, [command], command.length + 1⟩ (sp ++ (t :: tok') ++ d :: rest)
          = (⟨1, [command], command.length + 1⟩, KError.kFull,
             sp ++ (t :: tok') ++ 0 :: rest) := by
        simp only [argLoop, hr1, hsp1, htk, hdr, if_neg ht0, if_neg hd0, hp,
          hfalse, if_false]
      refine ⟨rest, ?_, hneq rest, ⟨[], ?_⟩⟩
      · rw [hred]
        simp only [hloop]
      · rw [hred]
        simp only [hloop]
    · have hp2 : pushToArgv argv_len argbuf_len
          ⟨1, [command], command.length + 1⟩ (t :: tok')
          = (⟨2, [command, t :: tok'],
              command.length + 1 + (t :: tok').length + 1⟩,
             KError.kSuccess) := by
        rw [hp]
        rfl
      obtain ⟨l, hl⟩ := argLoop_args_mono argv_len argbuf_len
        (sp.length + tok'.length + rest.length + 1) rest
        ⟨2, [command, t :: tok'], command.length + 1 + (t :: tok').length + 1⟩
      have hloop : argLoop argv_len argbuf_len
          ((sp.length + tok'.length + rest.length + 1) + 1)
          ⟨1, [command], command.length + 1⟩ (sp ++ (t :: tok') ++ d :: rest)
          = ((argLoop argv_len argbuf_len
                (sp.length + tok'.length + rest.length + 1)
                ⟨2, [command, t :: tok'],
                  command.length + 1 + (t :: tok').length + 1⟩ rest).1,
             (argLoop argv_len argbuf_len
                (sp.length + tok'.length + rest.length + 1)
                ⟨2, [command, t :: tok'],
                  command.length + 1 + (t :: tok').length + 1⟩ rest).2.1,
             sp ++ (t :: tok') ++ 0 ::
               (argLoop argv_len argbuf_len
                  (sp.length + tok'.length + rest.length + 1)
                  ⟨2, [command, t :: tok'],
                    command.length + 1 + (t :: tok').length + 1⟩ rest).2.2) := by
        simp only [argLoop, hr1, hsp1, htk, hdr, if_neg ht0, if_neg hd0, hp2,
          htrue, if_true]
      refine ⟨(argLoop argv_len argbuf_len
          (sp.length + tok'.length + rest.length + 1)
          ⟨2, [command, t :: tok'],
            command.length + 1 + (t :: tok').length + 1⟩ rest).2.2,
          ?_, hneq _, ⟨(t :: tok') :: l, ?_⟩⟩
      · rw [hred]
        simp only [hloop]
      · rw [hred]
        simp only [hloop]
        rw [hl]
        simp

/-- Witness for C9: tokenizing `"a b"` (bytes 97, 32, 98) overwrites the
space with NUL, leaving `[97, 0, 98]` ≠ `[97, 32, 98]`. -/
theorem claim9_first_arg_mutation_witness :
    ∃ mt,
      (MakeArgVector [99] (some ([] ++ [97] ++ 32 :: [98])) 32 3840).2.2
        = some ([] ++ [97] ++ 0 :: mt) ∧
      [] ++ [97] ++ 0 :: mt ≠ [] ++ [97] ++ 32 :: [98] ∧
      ∃ restArgs,
        (MakeArgVector [99] (some ([] ++ [97] ++ 32 :: [98])) 32 3840).1.args
          = [99] :: restArgs :=
  claim9_first_arg_mutation [99] [] [97] 32 [98] 32 3840
    (by decide) (by decide) (by decide) (by decide) (by decide) (by decide)

/-- Witness for C1 (amended) at the concrete bad-magic file. -/
theorem claim1_failed_exec_state_witness :
    (ExecuteFile kInit badFile [99] none).1 = Except.error KError.kInvalidFile ∧
    (ExecuteFile kInit badFile [99] none).2.taskCr3 = kInit.nextFrame ∧
    (ExecuteFile kInit badFile [99] none).2.cr3 = kInit.nextFrame ∧
    (ExecuteFile kInit badFile [99] none).2.taskCr3 ≠ kInit.taskCr3 ∧
    (ExecuteFile kInit badFile [99] none).2.allocated
      = kInit.allocated ++ [kInit.nextFrame] :=
  claim1_failed_exec_state kInit badFile [99] none
    (by decide) (by decide) (by decide) (by decide)

end HonOS
